import Mathlib

/-!
A shallow embedding of the chess engine in `src/js/chess-engine.js` (class
`ChessEngine`) and the move-parsing helpers of `src/js/ui-manager.js` (class
`UIManager`), together with theorems settling the frozen claims about the
specification.  Every definition is translated directly from the JavaScript
source; comments cite the source function names and line behaviour.

Conventions of the embedding:
* JS `number` coordinates are `Int`.
* The board is a list of rows, each a list of `Option Piece` (JS `null` is
  `none`).  `board[r][c]` with an in-range row and an out-of-range column
  yields JS `undefined`, which every use site treats exactly like `null`,
  so both are `none`.  An out-of-range *row* makes the subsequent element
  access throw a TypeError in JS; the only place this can happen with the
  engine's 8x8 boards is `makeMove`'s initial unguarded read
  `this.board[fromRow][fromCol]`, which the embedding models by returning
  `none : Option (MoveResult × GameState)` (= a thrown fault) there.
* JS `false` / `true` / `'promotion'` results of `makeMove` are the
  constructors of `MoveResult`.
-/

namespace Chess

inductive Color : Type
  | white
  | black
deriving DecidableEq, Repr

def Color.other : Color → Color
  | Color.white => Color.black
  | Color.black => Color.white

/-- Piece kinds; JS stores the kind as the string `piece.type`. -/
inductive PieceKind : Type
  | pawn
  | rook
  | knight
  | bishop
  | queen
  | king
deriving DecidableEq, Repr

/-- A piece object `{ symbol, type, color }` as created by the source. -/
structure Piece : Type where
  symbol : String
  kind : PieceKind
  color : Color
deriving DecidableEq, Repr

/-- The symbol the source attaches to each piece it creates. -/
def symbolOf : PieceKind → Color → String
  | PieceKind.pawn, Color.white => "♙"
  | PieceKind.rook, Color.white => "♖"
  | PieceKind.knight, Color.white => "♘"
  | PieceKind.bishop, Color.white => "♗"
  | PieceKind.queen, Color.white => "♕"
  | PieceKind.king, Color.white => "♔"
  | PieceKind.pawn, Color.black => "♟"
  | PieceKind.rook, Color.black => "♜"
  | PieceKind.knight, Color.black => "♞"
  | PieceKind.bishop, Color.black => "♝"
  | PieceKind.queen, Color.black => "♛"
  | PieceKind.king, Color.black => "♚"

def mkPiece (k : PieceKind) (c : Color) : Piece :=
  { symbol := symbolOf k c, kind := k, color := c }

/-- The 8x8 board: a list of rows of optional pieces. -/
abbrev Board := List (List (Option Piece))

/-- JS `board[r][c]`.  In-range rows with out-of-range columns give JS
`undefined`, treated as `null` by every use site, hence `none`.  All use
sites of this accessor in the source are reached with an in-range row
(see the module comment). -/
def Board.cell (b : Board) (r c : Int) : Option Piece :=
  if 0 ≤ r ∧ r ≤ 7 ∧ 0 ≤ c ∧ c ≤ 7 then
    (((b.get? r.toNat).getD []).get? c.toNat).getD none
  else none

/-- JS `board[r][c] = p`; only ever executed with in-range indices in the
source. -/
def Board.setCell (b : Board) (r c : Int) (p : Option Piece) : Board :=
  b.set r.toNat (((b.get? r.toNat).getD []).set c.toNat p)

/-- Castling-rights record per color: `{ king, rookQueen, rookKing }`. -/
structure RightsSide : Type where
  king : Bool
  rookQueen : Bool
  rookKing : Bool
deriving DecidableEq, Repr

structure CastlingRights : Type where
  white : RightsSide
  black : RightsSide
deriving DecidableEq, Repr

/-- FEN castling flags `{ K, Q, k, q }`. -/
structure FenCastling : Type where
  K : Bool
  Q : Bool
  k : Bool
  q : Bool
deriving DecidableEq, Repr

/-- JS `pendingPromotion = { fromRow, fromCol, toRow, toCol, color }`. -/
structure PendingPromotion : Type where
  fromRow : Int
  fromCol : Int
  toRow : Int
  toCol : Int
  color : Color
deriving DecidableEq, Repr

/-- Values of `gameWinner`: `null`, `'white'`, `'black'` or `'draw'`. -/
inductive Winner : Type
  | white
  | black
  | draw
deriving DecidableEq, Repr

def winnerOf : Color → Winner
  | Color.white => Winner.white
  | Color.black => Winner.black

/-- Snapshot pushed by `saveGameState`. -/
structure SavedState : Type where
  board : Board
  currentPlayer : Color
  castlingRights : CastlingRights
  fenCastling : FenCastling
  fenEnPassant : String
  halfmoveClock : Int
  moveHistory : List String
deriving DecidableEq, Repr

/-- The mutable fields of `ChessEngine` that the engine's own methods read
or write (`selectedSquare` is pure UI state, untouched by any embedded
method). -/
structure GameState : Type where
  board : Board
  currentPlayer : Color
  moveHistory : List String
  gameStateHistory : List SavedState
  isGameOver : Bool
  gameWinner : Option Winner
  pendingPromotion : Option PendingPromotion
  castlingRights : CastlingRights
  fenCastling : FenCastling
  fenEnPassant : String
  halfmoveClock : Int
  positionHistory : List String
deriving DecidableEq, Repr

/-- Result values of `makeMove`: JS `false`, `true`, `'promotion'`. -/
inductive MoveResult : Type
  | rejected
  | completed
  | promotion
deriving DecidableEq, Repr

/-! ### Board setup (`initializeBoard`) -/

def backRank (c : Color) : List (Option Piece) :=
  [some (mkPiece PieceKind.rook c), some (mkPiece PieceKind.knight c),
   some (mkPiece PieceKind.bishop c), some (mkPiece PieceKind.queen c),
   some (mkPiece PieceKind.king c), some (mkPiece PieceKind.bishop c),
   some (mkPiece PieceKind.knight c), some (mkPiece PieceKind.rook c)]

def pawnRank (c : Color) : List (Option Piece) :=
  List.replicate 8 (some (mkPiece PieceKind.pawn c))

def emptyRank : List (Option Piece) := List.replicate 8 none

/-- The board produced by `initializeBoard`: black pieces on row 0, black
pawns on row 1, white pawns on row 6, white pieces on row 7. -/
def startingBoard : Board :=
  [backRank Color.black, pawnRank Color.black,
   emptyRank, emptyRank, emptyRank, emptyRank,
   pawnRank Color.white, backRank Color.white]

/-- Engine state after the constructor plus `initializeBoard`. -/
def initialState : GameState :=
  { board := startingBoard
    currentPlayer := Color.white
    moveHistory := []
    gameStateHistory := []
    isGameOver := false
    gameWinner := none
    pendingPromotion := none
    castlingRights :=
      { white := { king := true, rookQueen := true, rookKing := true }
        black := { king := true, rookQueen := true, rookKing := true } }
    fenCastling := { K := true, Q := true, k := true, q := true }
    fenEnPassant := "-"
    halfmoveClock := 0
    positionHistory := [] }

/-! ### En-passant string parsing

`isValidPawnMove` and `handleEnPassant` read
`epFile = fenEnPassant.charCodeAt(0) - 97` and
`epRank = 8 - parseInt(fenEnPassant.charAt(1))`.  When the character is
missing or not a digit the JS value is `NaN` and every `===` comparison
against it is false; the embedding returns `none` in those cases and the
comparison against `none` is false. -/

def epFileOf (s : String) : Option Int :=
  (s.data.get? 0).map (fun ch => (ch.toNat : Int) - 97)

def epRankOf (s : String) : Option Int :=
  (s.data.get? 1).bind (fun ch =>
    if ch.isDigit then some ((8 : Int) - ((ch.toNat : Int) - 48)) else none)

/-- JS `toCol === epFile && toRow === epRank` guarded by
`fenEnPassant !== '-'`. -/
def epMatches (s : String) (toRow toCol : Int) : Bool :=
  if s = "-" then false
  else
    match epFileOf s, epRankOf s with
    | some f, some r => toCol = f ∧ toRow = r
    | _, _ => false

/-! ### Piece geometry (`isValidPieceMove` and friends) -/

/-- JS `isValidPawnMove` (board and `fenEnPassant` are the fields it reads). -/
def isValidPawnMove (b : Board) (ep : String) (piece : Piece)
    (fromRow fromCol toRow toCol : Int) : Bool :=
  let direction : Int := if piece.color = Color.white then -1 else 1
  let startRow : Int := if piece.color = Color.white then 6 else 1
  let rowDiff := toRow - fromRow
  let colDiff := (toCol - fromCol).natAbs
  -- forward moves
  if colDiff = 0 ∧ rowDiff = direction ∧ (b.cell toRow toCol).isNone then true
  else if colDiff = 0 ∧ fromRow = startRow ∧ rowDiff = 2 * direction ∧
      (b.cell toRow toCol).isNone ∧ (b.cell (fromRow + direction) fromCol).isNone then true
  -- diagonal captures
  else if colDiff = 1 ∧ rowDiff = direction then
    match b.cell toRow toCol with
    | some target => target.color ≠ piece.color
    | none => epMatches ep toRow toCol
  else false

/-- Sign of the step taken by `isPathClear`'s loop. -/
def stepOf (fromI toI : Int) : Int :=
  if toI > fromI then 1 else if toI < fromI then -1 else 0

/-- JS `isPathClear`.  The JS `while` loop steps from the source square toward
the destination and inspects every strictly intermediate square; all call
sites pass rank-, file- or diagonal-aligned squares, for which the loop
visits exactly the `max |Δrow| |Δcol| - 1` squares enumerated here. -/
def isPathClear (b : Board) (fromRow fromCol toRow toCol : Int) : Bool :=
  let rs := stepOf fromRow toRow
  let cs := stepOf fromCol toCol
  let n := max (toRow - fromRow).natAbs (toCol - fromCol).natAbs
  (List.range (n - 1)).all fun k =>
    (b.cell (fromRow + ((k : Int) + 1) * rs) (fromCol + ((k : Int) + 1) * cs)).isNone

def isValidRookMove (b : Board) (fromRow fromCol toRow toCol : Int) : Bool :=
  if fromRow ≠ toRow ∧ fromCol ≠ toCol then false
  else isPathClear b fromRow fromCol toRow toCol

def isValidBishopMove (b : Board) (fromRow fromCol toRow toCol : Int) : Bool :=
  if (toRow - fromRow).natAbs ≠ (toCol - fromCol).natAbs then false
  else isPathClear b fromRow fromCol toRow toCol

/-- JS `isValidKingMove`: one square in any direction; castling is explicitly
not a regular king move. -/
def isValidKingMove (fromRow fromCol toRow toCol : Int) : Bool :=
  (toRow - fromRow).natAbs ≤ 1 ∧ (toCol - fromCol).natAbs ≤ 1

/-- JS `isValidPieceMove` (reads `this.board` and, for pawns,
`this.fenEnPassant`). -/
def isValidPieceMove (b : Board) (ep : String) (piece : Piece)
    (fromRow fromCol toRow toCol : Int) : Bool :=
  let rowDiff := (toRow - fromRow).natAbs
  let colDiff := (toCol - fromCol).natAbs
  match piece.kind with
  | PieceKind.pawn => isValidPawnMove b ep piece fromRow fromCol toRow toCol
  | PieceKind.rook => isValidRookMove b fromRow fromCol toRow toCol
  | PieceKind.knight => (rowDiff = 2 ∧ colDiff = 1) ∨ (rowDiff = 1 ∧ colDiff = 2)
  | PieceKind.bishop => isValidBishopMove b fromRow fromCol toRow toCol
  | PieceKind.queen =>
      isValidRookMove b fromRow fromCol toRow toCol ∨
      isValidBishopMove b fromRow fromCol toRow toCol
  | PieceKind.king => isValidKingMove fromRow fromCol toRow toCol

/-! ### Check detection -/

/-- Row-major scan for the first king of the given color, as in
`isInCheckOnBoard` / `isInCheckSimple` (the inner `break` plus the
`kingRow !== -1` test after each row yield the row-major-first king). -/
def findKing (b : Board) (color : Color) : Option (Int × Int) :=
  (List.range 8).findSome? fun r =>
    (List.range 8).findSome? fun c =>
      match b.cell (r : Int) (c : Int) with
      | some p =>
          if p.kind = PieceKind.king ∧ p.color = color
          then some ((r : Int), (c : Int)) else none
      | none => none

/-- JS `canPieceAttack(piece, from, target, board)`: the source temporarily
swaps `this.board` for `board` and calls `isValidPieceMove`, so it is the
pure function below (the pawn case also reads `this.fenEnPassant`). -/
def canPieceAttack (b : Board) (ep : String) (piece : Piece)
    (fromRow fromCol targetRow targetCol : Int) : Bool :=
  isValidPieceMove b ep piece fromRow fromCol targetRow targetCol

/-- JS `isInCheckOnBoard(color, board)` (reads `this.fenEnPassant` through
`canPieceAttack`'s pawn case). -/
def isInCheckOnBoard (ep : String) (color : Color) (b : Board) : Bool :=
  match findKing b color with
  | none => false
  | some (kr, kc) =>
      let opponent := color.other
      (List.range 8).any fun r =>
        (List.range 8).any fun c =>
          match b.cell (r : Int) (c : Int) with
          | some p =>
              p.color = opponent ∧
              canPieceAttack b ep p (r : Int) (c : Int) kr kc
          | none => false

/-- JS `isInCheck(color)`. -/
def isInCheck (s : GameState) (color : Color) : Bool :=
  isInCheckOnBoard s.fenEnPassant color s.board

/-! ### Full move legality (`isValidMove`) -/

def isValidMove (s : GameState) (fromRow fromCol toRow toCol : Int) : Bool :=
  -- basic bounds check
  if fromRow < 0 ∨ 7 < fromRow ∨ fromCol < 0 ∨ 7 < fromCol ∨
     toRow < 0 ∨ 7 < toRow ∨ toCol < 0 ∨ 7 < toCol then false
  else
    match s.board.cell fromRow fromCol with
    | none => false
    | some piece =>
      if piece.color ≠ s.currentPlayer then false
      else if (match s.board.cell toRow toCol with
               | some target => decide (target.color = piece.color)
               | none => false) = true then false
      else if ¬ isValidPieceMove s.board s.fenEnPassant piece
                 fromRow fromCol toRow toCol then false
      else
        -- scratch copy: only the moving piece is transferred; an
        -- en-passant-captured pawn is NOT removed here
        let testBoard := (s.board.setCell toRow toCol (some piece)).setCell
          fromRow fromCol none
        ¬ isInCheckOnBoard s.fenEnPassant piece.color testBoard

/-- JS `getAllLegalMovesForColor(color)`. -/
def getAllLegalMovesForColor (s : GameState) (color : Color) :
    List ((Int × Int) × (Int × Int)) :=
  (List.range 8).flatMap fun r =>
    (List.range 8).flatMap fun c =>
      match s.board.cell (r : Int) (c : Int) with
      | some p =>
          if p.color = color then
            (List.range 8).flatMap fun tr =>
              (List.range 8).filterMap fun tc =>
                if isValidMove s (r : Int) (c : Int) (tr : Int) (tc : Int)
                then some (((r : Int), (c : Int)), ((tr : Int), (tc : Int)))
                else none
          else []
      | none => []

/-- JS `getAllLegalMoves()` (for `currentPlayer`). -/
def getAllLegalMoves (s : GameState) : List ((Int × Int) × (Int × Int)) :=
  getAllLegalMovesForColor s s.currentPlayer

/-! ### Non-recursive attack checks used by castling -/

/-- JS `canPieceAttackSimple` — attack geometry without the check-safety
recursion; note the pawn case tests only the diagonal step and ignores
what stands on the target square. -/
def canPieceAttackSimple (b : Board) (piece : Piece)
    (fromRow fromCol targetRow targetCol : Int) : Bool :=
  match piece.kind with
  | PieceKind.pawn =>
      let direction : Int := if piece.color = Color.white then -1 else 1
      (targetCol - fromCol).natAbs = 1 ∧ targetRow - fromRow = direction
  | PieceKind.rook =>
      (fromRow = targetRow ∨ fromCol = targetCol) ∧
      isPathClear b fromRow fromCol targetRow targetCol
  | PieceKind.bishop =>
      (fromRow - targetRow).natAbs = (fromCol - targetCol).natAbs ∧
      isPathClear b fromRow fromCol targetRow targetCol
  | PieceKind.queen =>
      ((fromRow = targetRow ∨ fromCol = targetCol) ∨
       (fromRow - targetRow).natAbs = (fromCol - targetCol).natAbs) ∧
      isPathClear b fromRow fromCol targetRow targetCol
  | PieceKind.king =>
      (fromRow - targetRow).natAbs ≤ 1 ∧ (fromCol - targetCol).natAbs ≤ 1
  | PieceKind.knight =>
      ((fromRow - targetRow).natAbs = 2 ∧ (fromCol - targetCol).natAbs = 1) ∨
      ((fromRow - targetRow).natAbs = 1 ∧ (fromCol - targetCol).natAbs = 2)

/-- JS `isInCheckSimple(color)`. -/
def isInCheckSimple (s : GameState) (color : Color) : Bool :=
  match findKing s.board color with
  | none => false
  | some (kr, kc) =>
      let opponent := color.other
      (List.range 8).any fun r =>
        (List.range 8).any fun c =>
          match s.board.cell (r : Int) (c : Int) with
          | some p =>
              p.color = opponent ∧
              canPieceAttackSimple s.board p (r : Int) (c : Int) kr kc
          | none => false

/-- JS `isSquareUnderAttackSimple(row, col, defenderColor)`. -/
def isSquareUnderAttackSimple (s : GameState) (row col : Int)
    (defenderColor : Color) : Bool :=
  let attackerColor := defenderColor.other
  (List.range 8).any fun r =>
    (List.range 8).any fun c =>
      match s.board.cell (r : Int) (c : Int) with
      | some p =>
          p.color = attackerColor ∧
          canPieceAttackSimple s.board p (r : Int) (c : Int) row col
      | none => false

/-! ### Castling -/

inductive CastleSide : Type
  | kingside
  | queenside
deriving DecidableEq, Repr

/-- JS `isCastlingMove(piece, from, to)`. -/
def isCastlingMove (piece : Option Piece)
    (fromRow fromCol toRow toCol : Int) : Bool :=
  match piece with
  | none => false
  | some p =>
      p.kind = PieceKind.king ∧ fromCol = 4 ∧ (toCol = 6 ∨ toCol = 2) ∧
      fromRow = toRow ∧
      ((p.color = Color.white ∧ fromRow = 7) ∨
       (p.color = Color.black ∧ fromRow = 0))

/-- JS `canCastle(color, side)`.  Note: only the rights flags, the check test
and the emptiness/attack state of the squares between king and rook are
inspected; the presence of the rook itself is never verified. -/
def canCastle (s : GameState) (color : Color) (side : CastleSide) : Bool :=
  let row : Int := if color = Color.white then 7 else 0
  let rights := if color = Color.white then s.castlingRights.white
                else s.castlingRights.black
  if ¬ rights.king then false
  else if side = CastleSide.kingside ∧ ¬ rights.rookKing then false
  else if side = CastleSide.queenside ∧ ¬ rights.rookQueen then false
  else if isInCheckSimple s color then false
  else
    match side with
    | CastleSide.kingside =>
        -- squares f1/f8 (col 5) and g1/g8 (col 6)
        [ (5 : Int), 6 ].all fun col =>
          (s.board.cell row col).isNone ∧
          ¬ isSquareUnderAttackSimple s row col color
    | CastleSide.queenside =>
        -- squares b1/b8, c1/c8, d1/d8; attack test only for cols ≥ 2
        [ (1 : Int), 2, 3 ].all fun col =>
          (s.board.cell row col).isNone ∧
          (2 ≤ col → ¬ isSquareUnderAttackSimple s row col color)

/-- JS `handleCastling(side, prevBoard)`: executes the castling move, revokes
all rights of the mover, pushes "O-O"/"O-O-O", switches the player — and
does NOT clear `fenEnPassant`, does NOT touch `halfmoveClock`, does NOT
push to `positionHistory` and does NOT run `checkGameEndConditions`
(the `prevBoard` argument is unused for the state). -/
def handleCastling (s : GameState) (side : CastleSide) :
    MoveResult × GameState :=
  let row : Int := if s.currentPlayer = Color.white then 7 else 0
  let king := s.board.cell row 4
  if ¬ canCastle s s.currentPlayer side then (MoveResult.rejected, s)
  else
    let s1 :=
      match side with
      | CastleSide.kingside =>
          let b := ((((s.board.setCell row 6 king).setCell row 5
            (s.board.cell row 7)).setCell row 4 none).setCell row 7 none)
          { s with board := b, moveHistory := s.moveHistory ++ ["O-O"] }
      | CastleSide.queenside =>
          let b := ((((s.board.setCell row 2 king).setCell row 3
            (s.board.cell row 0)).setCell row 4 none).setCell row 0 none)
          { s with board := b, moveHistory := s.moveHistory ++ ["O-O-O"] }
    let s2 :=
      if s1.currentPlayer = Color.white then
        { s1 with
          castlingRights :=
            { s1.castlingRights with
              white := { king := false, rookQueen := false, rookKing := false } }
          fenCastling := { s1.fenCastling with K := false, Q := false } }
      else
        { s1 with
          castlingRights :=
            { s1.castlingRights with
              black := { king := false, rookQueen := false, rookKing := false } }
          fenCastling := { s1.fenCastling with k := false, q := false } }
    (MoveResult.completed, { s2 with currentPlayer := s2.currentPlayer.other })

/-- JS `updateCastlingRights(piece, fromRow, fromCol)`: revokes rights when a
king or a rook MOVES; a rook being captured on its home square triggers
nothing (the function is called with the capturing piece). -/
def updateCastlingRights (s : GameState) (piece : Piece)
    (_fromRow fromCol : Int) : GameState :=
  match piece.kind with
  | PieceKind.king =>
      if piece.color = Color.white then
        { s with
          castlingRights :=
            { s.castlingRights with
              white := { s.castlingRights.white with king := false } }
          fenCastling := { s.fenCastling with K := false, Q := false } }
      else
        { s with
          castlingRights :=
            { s.castlingRights with
              black := { s.castlingRights.black with king := false } }
          fenCastling := { s.fenCastling with k := false, q := false } }
  | PieceKind.rook =>
      if piece.color = Color.white then
        if fromCol = 0 then
          { s with
            castlingRights :=
              { s.castlingRights with
                white := { s.castlingRights.white with rookQueen := false } }
            fenCastling := { s.fenCastling with Q := false } }
        else if fromCol = 7 then
          { s with
            castlingRights :=
              { s.castlingRights with
                white := { s.castlingRights.white with rookKing := false } }
            fenCastling := { s.fenCastling with K := false } }
        else s
      else
        if fromCol = 0 then
          { s with
            castlingRights :=
              { s.castlingRights with
                black := { s.castlingRights.black with rookQueen := false } }
            fenCastling := { s.fenCastling with q := false } }
        else if fromCol = 7 then
          { s with
            castlingRights :=
              { s.castlingRights with
                black := { s.castlingRights.black with rookKing := false } }
            fenCastling := { s.fenCastling with k := false } }
        else s
  | _ => s

/-! ### En passant -/

/-- JS `handleEnPassant(piece, from, to)`: removes the captured pawn when the
move is a pawn step onto the empty en-passant target square; returns
whether it fired. -/
def handleEnPassant (s : GameState) (piece : Option Piece)
    (_fromRow fromCol toRow toCol : Int) : Bool × GameState :=
  match piece with
  | some p =>
      if p.kind = PieceKind.pawn ∧ (s.board.cell toRow toCol).isNone ∧
         (toCol - fromCol).natAbs = 1 then
        if epMatches s.fenEnPassant toRow toCol then
          let capturedPawnRow :=
            if p.color = Color.white then toRow + 1 else toRow - 1
          (true, { s with board := s.board.setCell capturedPawnRow toCol none })
        else (false, s)
      else (false, s)
  | none => (false, s)

/-- JS `updateEnPassantTarget(piece, from, to)`: always resets the target,
then re-sets it on a pawn double move (the JS `(fromRow + toRow) / 2` is
exact there since the rows differ by 2). -/
def updateEnPassantTarget (s : GameState) (piece : Option Piece)
    (fromRow fromCol toRow _toCol : Int) : GameState :=
  let cleared := { s with fenEnPassant := "-" }
  match piece with
  | some p =>
      if p.kind = PieceKind.pawn ∧ (toRow - fromRow).natAbs = 2 then
        let epCol := fromCol
        let epRow := (fromRow + toRow) / 2
        { cleared with
          fenEnPassant :=
            String.mk [Char.ofNat (97 + epCol).toNat] ++ toString (8 - epRow) }
      else cleared
  | none => cleared

/-- JS `isPawnPromotion(from, to)` (reads the still-unmoved piece at the
source square). -/
def isPawnPromotion (s : GameState) (fromRow fromCol toRow _toCol : Int) :
    Bool :=
  match s.board.cell fromRow fromCol with
  | some p =>
      p.kind = PieceKind.pawn ∧
      ((p.color = Color.white ∧ toRow = 0) ∨
       (p.color = Color.black ∧ toRow = 7))
  | none => false

/-! ### Position fingerprint and repetition -/

def colorInitial : Color → String
  | Color.white => "w"
  | Color.black => "b"

/-- JS `piece.type[0]`: note that both `'king'` and `'knight'` yield `'k'`. -/
def kindInitial : PieceKind → String
  | PieceKind.pawn => "p"
  | PieceKind.rook => "r"
  | PieceKind.knight => "k"
  | PieceKind.bishop => "b"
  | PieceKind.queen => "q"
  | PieceKind.king => "k"

/-- The two-character square code of `generatePositionKey`:
`` `${piece.color[0]}${piece.type[0]}` `` or `'--'`. -/
def pieceKeyCode : Option Piece → String
  | some p => colorInitial p.color ++ kindInitial p.kind
  | none => "--"

/-- The castling-rights part of the key. -/
def castlingKeyPart (f : FenCastling) : String :=
  (if f.K then "K" else "") ++ (if f.Q then "Q" else "") ++
  (if f.k then "k" else "") ++ (if f.q then "q" else "")

/-- JS `generatePositionKey()`: 64 square codes in row-major order, then the
current player's initial, the castling flags and the raw
`fenEnPassant` string. -/
def generatePositionKey (s : GameState) : String :=
  (String.join ((List.range 8).map fun (r : Nat) =>
    String.join ((List.range 8).map fun (c : Nat) =>
      pieceKeyCode (s.board.cell (r : Int) (c : Int))))) ++
  colorInitial s.currentPlayer ++
  castlingKeyPart s.fenCastling ++
  s.fenEnPassant

/-- JS `isThreefoldRepetition()`: the current key occurs at least three times
in `positionHistory`. -/
def isThreefoldRepetition (s : GameState) : Bool :=
  3 ≤ (s.positionHistory.countP (fun p => p = generatePositionKey s))

/-! ### Game-end detection -/

/-- JS `checkGameEndConditions()`: returns the JS result string (or `null`)
and the updated state. -/
def checkGameEndConditions (s : GameState) : Option String × GameState :=
  let legalMoves := getAllLegalMoves s
  if legalMoves.length = 0 then
    if isInCheck s s.currentPlayer then
      (some "checkmate",
       { s with isGameOver := true,
                gameWinner := some (winnerOf s.currentPlayer.other) })
    else
      (some "stalemate",
       { s with isGameOver := true, gameWinner := some Winner.draw })
  else if 100 ≤ s.halfmoveClock then
    (some "fifty-moves",
     { s with isGameOver := true, gameWinner := some Winner.draw })
  else if isThreefoldRepetition s then
    (some "repetition",
     { s with isGameOver := true, gameWinner := some Winner.draw })
  else (none, s)

/-- JS `saveGameState()` (the JSON round-trip and spreads are value copies). -/
def saveGameState (s : GameState) : GameState :=
  { s with
    gameStateHistory := s.gameStateHistory ++
      [{ board := s.board
         currentPlayer := s.currentPlayer
         castlingRights := s.castlingRights
         fenCastling := s.fenCastling
         fenEnPassant := s.fenEnPassant
         halfmoveClock := s.halfmoveClock
         moveHistory := s.moveHistory }] }

/-! ### Algebraic move records (`getAlgebraicNotation`,
`getDisambiguation` in the source) -/

def fileStr (c : Int) : String := String.mk [Char.ofNat (97 + c).toNat]

/-- JS `pieceSymbols[piece.type]` with the `charAt(0).toUpperCase()` fallback
(only the pawn case would hit the fallback, and it is unreachable: pawns
take the other branch). -/
def pieceLetter : PieceKind → String
  | PieceKind.knight => "N"
  | PieceKind.king => "K"
  | PieceKind.queen => "Q"
  | PieceKind.rook => "R"
  | PieceKind.bishop => "B"
  | PieceKind.pawn => "P"

/-- JS `getDisambiguation(piece, from, to, prevBoard)`: scans `prevBoard` for
other same-type same-color pieces that could also legally reach the
destination (legality evaluated with `this.board` swapped to `prevBoard`;
`currentPlayer` and `fenEnPassant` are the current — already updated —
fields). -/
def getDisambiguation (s : GameState) (piece : Piece)
    (fromRow fromCol toRow toCol : Int) (prevBoard : Board) : String :=
  let sameTypePieces : List (Int × Int) :=
    (List.range 8).flatMap fun r =>
      (List.range 8).filterMap fun c =>
        match prevBoard.cell (r : Int) (c : Int) with
        | some other =>
            if other.kind = piece.kind ∧ other.color = piece.color ∧
               ¬ ((r : Int) = fromRow ∧ (c : Int) = fromCol) then
              if isValidMove { s with board := prevBoard }
                   (r : Int) (c : Int) toRow toCol
              then some ((r : Int), (c : Int)) else none
            else none
        | none => none
  if sameTypePieces.length = 0 then ""
  else if (sameTypePieces.filter (fun p => p.2 = fromCol)).length = 0 then
    fileStr fromCol
  else if (sameTypePieces.filter (fun p => p.1 = fromRow)).length = 0 then
    toString (8 - fromRow)
  else fileStr fromCol ++ toString (8 - fromRow)

/-- JS `getAlgebraicNotation(from, to, options)`: called by `makeMove` after
the board has been mutated, with `prevBoard` the pre-move board and
`currentPlayer` still the mover.  The check/checkmate suffix enumerates
the opponent's legal moves with `isValidMove`, whose turn test makes that
enumeration empty here, so a check is always recorded as `#`. -/
def getAlgebraicSAN (s : GameState) (fromRow fromCol toRow toCol : Int)
    (isCapture : Bool) (prevBoard : Board) (isEnPassant : Bool)
    (promotion : Option String) : String :=
  let actualPiece :=
    match s.board.cell fromRow fromCol with
    | some p => some p
    | none => prevBoard.cell fromRow fromCol
  match actualPiece with
  | none => "??"
  | some p =>
      let fromFile := fileStr fromCol
      let toFile := fileStr toCol
      let toRank := toString (8 - toRow)
      let base :=
        if p.kind = PieceKind.pawn then
          let n0 := if isCapture ∨ isEnPassant
                    then fromFile ++ "x" ++ toFile ++ toRank
                    else toFile ++ toRank
          let n1 := match promotion with
                    | some pr => n0 ++ "=" ++ pr.toUpper
                    | none => n0
          if isEnPassant then n1 ++ " e.p." else n1
        else
          pieceLetter p.kind ++
          getDisambiguation s p fromRow fromCol toRow toCol prevBoard ++
          (if isCapture then "x" else "") ++ toFile ++ toRank
      let opponentColor := p.color.other
      if isInCheck s opponentColor then
        if (getAllLegalMovesForColor s opponentColor).length = 0
        then base ++ "#" else base ++ "+"
      else base

/-! ### `makeMove` -/

/-- The executed non-castling tail of `makeMove` (source lines 126-182)
for a validated move of the piece `p` found at the source square:
state snapshot, castling-rights update, en passant, en-passant-target
update, halfmove clock, then either promotion suspension or execution
with history, player switch, repetition tracking and the game-end check. -/
def execRegularMove (s : GameState) (p : Piece)
    (fromRow fromCol toRow toCol : Int) : MoveResult × GameState :=
  let s1 := saveGameState s
  let prevBoard := s1.board
  let s2 := updateCastlingRights s1 p fromRow fromCol
  let epResult := handleEnPassant s2 (some p) fromRow fromCol toRow toCol
  let isEnPassant := epResult.1
  let s3 := epResult.2
  let s4 := updateEnPassantTarget s3 (some p) fromRow fromCol toRow toCol
  let isCapture :=
    match s4.board.cell toRow toCol with
    | some target => decide (target.color ≠ p.color)
    | none => false
  let s5 := if p.kind = PieceKind.pawn ∨ isCapture = true ∨ isEnPassant = true
            then { s4 with halfmoveClock := 0 }
            else { s4 with halfmoveClock := s4.halfmoveClock + 1 }
  if isPawnPromotion s5 fromRow fromCol toRow toCol then
    let pp : PendingPromotion := ⟨fromRow, fromCol, toRow, toCol, p.color⟩
    (MoveResult.promotion, { s5 with pendingPromotion := some pp })
  else
    let s6 := { s5 with
      board := (s5.board.setCell toRow toCol (some p)).setCell
        fromRow fromCol none }
    let entry := getAlgebraicSAN s6 fromRow fromCol toRow toCol
      (isCapture || isEnPassant) prevBoard isEnPassant none
    let s7 := { s6 with moveHistory := s6.moveHistory ++ [entry] }
    let s8 := { s7 with currentPlayer := s7.currentPlayer.other }
    let s9 := { s8 with
      positionHistory := s8.positionHistory ++ [generatePositionKey s8] }
    (MoveResult.completed, (checkGameEndConditions s9).2)

/-- JS `makeMove(fromRow, fromCol, toRow, toCol)`.  The outer `none` models
the TypeError thrown by the unguarded read `this.board[fromRow][fromCol]`
when `fromRow` is outside the 8-row board; every other path returns a JS
value.  The JS local `piece` is written out as `s.board.cell fromRow
fromCol` at each use.  The `isCastlingMove` re-test at source lines
131-134 is unreachable (the identical test at line 108 already returned)
and is therefore not repeated. -/
def makeMove (s : GameState) (fromRow fromCol toRow toCol : Int) :
    Option (MoveResult × GameState) :=
  if s.pendingPromotion.isSome ∨ s.isGameOver then
    some (MoveResult.rejected, s)
  else if fromRow < 0 ∨ 7 < fromRow then none
  else if isCastlingMove (s.board.cell fromRow fromCol)
            fromRow fromCol toRow toCol then
    match s.board.cell fromRow fromCol with
    | none => some (MoveResult.rejected, s)  -- unreachable: needs a king
    | some p =>
        let side := if toCol = 6 then CastleSide.kingside
                    else CastleSide.queenside
        if canCastle s p.color side then some (handleCastling s side)
        else some (MoveResult.rejected, s)
  else if ¬ isValidMove s fromRow fromCol toRow toCol then
    some (MoveResult.rejected, s)
  else
    match s.board.cell fromRow fromCol with
    | none => some (MoveResult.rejected, s)
      -- unreachable: isValidMove requires a piece at the source
    | some p => some (execRegularMove s p fromRow fromCol toRow toCol)

/-- Replays a list of coordinate moves, requiring each `makeMove` call to
return JS `true`; `none` if any call throws, rejects or suspends. -/
def playMoves : GameState → List (Int × Int × Int × Int) → Option GameState
  | s, [] => some s
  | s, (fr, fc, tr, tc) :: rest =>
      match makeMove s fr fc tr tc with
      | some (MoveResult.completed, s') => playMoves s' rest
      | _ => none

/-! ### `ui-manager.js`: piece-move token resolution and promotion
resolution -/

/-- A `{ row, col, piece }` candidate of `findPieceForMove`. -/
structure Candidate : Type where
  row : Int
  col : Int
  piece : Piece
deriving DecidableEq, Repr

/-- The `pieceSymbols` lookup of `findPieceForMove`, keyed by the
lower-case letter of the piece-move token. -/
def pieceSymbolFor (currentPlayer : Color) (pieceType : String) :
    Option String :=
  if pieceType = "k" then some (symbolOf PieceKind.king currentPlayer)
  else if pieceType = "q" then some (symbolOf PieceKind.queen currentPlayer)
  else if pieceType = "r" then some (symbolOf PieceKind.rook currentPlayer)
  else if pieceType = "b" then some (symbolOf PieceKind.bishop currentPlayer)
  else if pieceType = "n" then some (symbolOf PieceKind.knight currentPlayer)
  else if pieceType = "p" then some (symbolOf PieceKind.pawn currentPlayer)
  else none

/-- JS `parseInt` applied to the whole disambiguation string (as in
`8 - parseInt(disambiguation)`): the JS value is the number read from a
leading digit, `NaN` otherwise. -/
def parseIntOf (str : String) : Option Int :=
  match str.data.get? 0 with
  | some ch => if ch.isDigit then some ((ch.toNat : Int) - 48) else none
  | none => none

/-- The candidate collection of `findPieceForMove`: a row-major scan for
pieces of the current player whose stored `symbol` equals the target
symbol, then the optional one-character-file / otherwise-rank filter.
A `none` disambiguation is an absent (falsy) regex group. -/
def filteredCandidates (s : GameState) (pieceType : String)
    (disambiguation : Option String) : List Candidate :=
  match pieceSymbolFor s.currentPlayer pieceType with
  | none => []
  | some targetSymbol =>
      let candidates : List Candidate :=
        (List.range 8).flatMap fun r =>
          (List.range 8).filterMap fun c =>
            match s.board.cell (r : Int) (c : Int) with
            | some p =>
                if p.color = s.currentPlayer ∧ p.symbol = targetSymbol
                then some ⟨(r : Int), (c : Int), p⟩ else none
            | none => none
      match disambiguation with
      | none => candidates
      | some d =>
          if d = "" then candidates  -- empty string is falsy in JS
          else if d.length = 1 then
            match d.data.get? 0 with
            | some ch =>
                candidates.filter (fun c => c.col = ((ch.toNat : Int) - 97))
            | none => candidates
          else
            match parseIntOf d with
            | some v => candidates.filter (fun c => c.row = 8 - v)
            | none => []  -- rank === NaN filters out every candidate

/-- The per-candidate acceptance test in `findPieceForMove`'s final loop:
an own piece on the target square means `continue`, otherwise the
engine's `isValidMove` decides. -/
def candidatePasses (s : GameState) (c : Candidate) (toRow toCol : Int) :
    Bool :=
  match s.board.cell toRow toCol with
  | some target =>
      if target.color = s.currentPlayer then false
      else isValidMove s c.row c.col toRow toCol
  | none => isValidMove s c.row c.col toRow toCol

/-- JS `findPieceForMove(pieceType, disambiguation, toRow, toCol)`: returns
the FIRST candidate in row-major order that passes the test — it does not
fail when several candidates pass. -/
def findPieceForMove (s : GameState) (pieceType : String)
    (disambiguation : Option String) (toRow toCol : Int) :
    Option Candidate :=
  (filteredCandidates s pieceType disambiguation).findSome? fun c =>
    if candidatePasses s c toRow toCol then some c else none

/-- JS `handlePieceMove` after the regex has been split into its groups and
the destination square into coordinates: resolves the piece and, when one
is found, forwards to `makeMove` (browser-display updates omitted).
Returns JS `false` when no piece resolves. -/
def handlePieceMove (s : GameState) (pieceType : String)
    (disambiguation : Option String) (toRow toCol : Int) :
    Option (MoveResult × GameState) :=
  match findPieceForMove s pieceType disambiguation toRow toCol with
  | some c => makeMove s c.row c.col toRow toCol
  | none => some (MoveResult.rejected, s)

/-- The four promotion piece types offered by the promotion modal; the
`pieceType` string `executePromotion` receives is always one of these. -/
inductive PromoKind : Type
  | queen
  | rook
  | bishop
  | knight
deriving DecidableEq, Repr

def PromoKind.toPieceKind : PromoKind → PieceKind
  | PromoKind.queen => PieceKind.queen
  | PromoKind.rook => PieceKind.rook
  | PromoKind.bishop => PieceKind.bishop
  | PromoKind.knight => PieceKind.knight

def PromoKind.letter : PromoKind → String
  | PromoKind.queen => "Q"
  | PromoKind.rook => "R"
  | PromoKind.bishop => "B"
  | PromoKind.knight => "N"

/-- JS `getPromotionNotation(promotion, pieceType)` in `ui-manager.js`. -/
def getPromotionEntry (promo : PendingPromotion) (pk : PromoKind) : String :=
  fileStr promo.fromCol ++ fileStr promo.toCol ++
  toString (8 - promo.toRow) ++ "=" ++ pk.letter

/-- JS `executePromotion(pieceType)`: completes the suspended move on the
engine — replaces the pawn, records the entry, switches the player,
clears `pendingPromotion` and re-runs `checkGameEndConditions` (modal and
rendering calls omitted).  The read of `piece.color` presupposes the
promoting pawn still on its source square, which `makeMove` guarantees;
with no pending promotion the call is a no-op. -/
def executePromotion (s : GameState) (pk : PromoKind) : GameState :=
  match s.pendingPromotion with
  | none => s
  | some promo =>
      match s.board.cell promo.fromRow promo.fromCol with
      | none => s  -- unreachable for states produced by makeMove
      | some piece =>
          let newPiece : Piece :=
            { symbol := symbolOf pk.toPieceKind piece.color
              kind := pk.toPieceKind
              color := piece.color }
          let b := (s.board.setCell promo.toRow promo.toCol
            (some newPiece)).setCell promo.fromRow promo.fromCol none
          let s1 := { s with
            board := b
            moveHistory := s.moveHistory ++ [getPromotionEntry promo pk]
            currentPlayer := s.currentPlayer.other
            pendingPromotion := none }
          (checkGameEndConditions s1).2

/-! ### Concrete games and positions used by the claim theorems -/

/-- A legal game exposing the en-passant check-evasion gap: 1.e4 c6 2.e5
Qa5 3.Ke2 a6 4.Kf3 Ra7 5.Kg4 Ra8 6.Kh5 d5 7.exd6 e.p. — the capture
removes the d5 pawn that was the only shield between the black queen on
a5 and the white king on h5. -/
def c1Moves : List (Int × Int × Int × Int) :=
  [(6,4,4,4), (1,2,2,2), (4,4,3,4), (0,3,3,0), (7,4,6,4), (1,0,2,0),
   (6,4,5,5), (0,0,1,0), (5,5,4,6), (1,0,0,0), (4,6,3,7), (1,3,3,3),
   (3,4,2,3)]

/-- A legal game after which white's kingside rook has been CAPTURED on h1
(by the black light-squared bishop, which stays there) while white's
castling rights are untouched: 1.Nf3 d5 2.a3 Bh3 3.a4 Bxg2 4.e3 Bxh1
5.Be2 a6. -/
def c2Moves : List (Int × Int × Int × Int) :=
  [(7,6,5,5), (1,3,3,3), (6,0,5,0), (0,2,5,7), (5,0,4,0), (5,7,6,6),
   (6,4,5,4), (6,6,7,7), (7,5,6,4), (1,0,2,0)]

/-- A legal game ending with black's double advance 3...d5 (setting the
en-passant target d6), after which white castles kingside: 1.e3 Nc6
2.Be2 Nb8 3.Nf3 d5. -/
def c5Moves : List (Int × Int × Int × Int) :=
  [(6,4,5,4), (0,1,2,2), (7,5,6,4), (2,2,0,1), (7,6,5,5), (1,3,3,3)]

/-- A legal game with halfmove clock 3 after which white castles kingside:
1.Nf3 Nc6 2.e3 Nb8 3.Be2 Nc6 (clock: 1, 2, 0, 1, 2, 3). -/
def c6Moves : List (Int × Int × Int × Int) :=
  [(7,6,5,5), (0,1,2,2), (6,4,5,4), (2,2,0,1), (7,5,6,4), (0,1,2,2)]

/-- Position with white to move and castling available where O-O leaves
black (king a8, boxed by the queen on b6) stalemated: white Ke1, Rh1,
Qb6; black Ka8. -/
def c7State : GameState :=
  { initialState with
    board :=
      [[some (mkPiece PieceKind.king Color.black),
        none, none, none, none, none, none, none],
       emptyRank,
       [none, some (mkPiece PieceKind.queen Color.white),
        none, none, none, none, none, none],
       emptyRank, emptyRank, emptyRank, emptyRank,
       [none, none, none, none, some (mkPiece PieceKind.king Color.white),
        none, none, some (mkPiece PieceKind.rook Color.white)]] }

/-- Position A for the fingerprint collision: white king e1, white knight
d5, black king e8. -/
def c8StateA : GameState :=
  { initialState with
    board :=
      [[none, none, none, none, some (mkPiece PieceKind.king Color.black),
        none, none, none],
       emptyRank, emptyRank,
       [none, none, none, some (mkPiece PieceKind.knight Color.white),
        none, none, none, none],
       emptyRank, emptyRank, emptyRank,
       [none, none, none, none, some (mkPiece PieceKind.king Color.white),
        none, none, none]] }

/-- Position B: as A but with white KING on d5 and white KNIGHT on e1 —
a different piece layout with the same fingerprint. -/
def c8StateB : GameState :=
  { initialState with
    board :=
      [[none, none, none, none, some (mkPiece PieceKind.king Color.black),
        none, none, none],
       emptyRank, emptyRank,
       [none, none, none, some (mkPiece PieceKind.king Color.white),
        none, none, none, none],
       emptyRank, emptyRank, emptyRank,
       [none, none, none, none, some (mkPiece PieceKind.knight Color.white),
        none, none, none]] }

/-- Position with two white knights (a4 and e4) that can both legally
reach c3: the piece-move token "Nc3" is ambiguous. -/
def c9State : GameState :=
  { initialState with
    board :=
      [[none, none, none, none, some (mkPiece PieceKind.king Color.black),
        none, none, none],
       emptyRank, emptyRank, emptyRank,
       [some (mkPiece PieceKind.knight Color.white), none, none, none,
        some (mkPiece PieceKind.knight Color.white), none, none, none],
       emptyRank, emptyRank,
       [none, none, none, none, some (mkPiece PieceKind.king Color.white),
        none, none, none]] }

/-- Position with a white pawn on e7 ready to promote (white Ke1, pawn e7;
black Ka8). -/
def promoState : GameState :=
  { initialState with
    board :=
      [[some (mkPiece PieceKind.king Color.black),
        none, none, none, none, none, none, none],
       [none, none, none, none, some (mkPiece PieceKind.pawn Color.white),
        none, none, none],
       emptyRank, emptyRank, emptyRank, emptyRank, emptyRank,
       [none, none, none, none, some (mkPiece PieceKind.king Color.white),
        none, none, none]] }

/-- Well-formedness of the `fenEnPassant` string: the engine only ever
stores `"-"` or a file letter followed by a rank digit (in fact always
`'3'` or `'6'`, the midpoint rank of a double advance). -/
def epWellFormed (ep : String) : Bool :=
  if ep = "-" then true
  else
    match ep.data with
    | [f, r] =>
        decide (f ∈ (['a', 'b', 'c', 'd', 'e', 'f', 'g', 'h'] : List Char)) &&
        decide (r = '3' ∨ r = '6')
    | _ => false


/-! ### Derived definitions used by the theorems -/

/-- Two optional pieces that `generatePositionKey` cannot distinguish:
same occupancy, same color, and the same kind up to the king/knight
identification (both `'king'` and `'knight'` are encoded as `'k'`; the
stored symbol is not encoded at all). -/
def sameKeyPiece : Option Piece → Option Piece → Prop
  | none, none => True
  | some p, some q =>
      p.color = q.color ∧
      (p.kind = q.kind ∨
       ((p.kind = PieceKind.king ∨ p.kind = PieceKind.knight) ∧
        (q.kind = PieceKind.king ∨ q.kind = PieceKind.knight)))
  | _, _ => False

/-- The 64 square codes of `generatePositionKey` in row-major order. -/
def boardCodes (s : GameState) : List String :=
  (List.range 8).flatMap fun (r : Nat) =>
    (List.range 8).map fun (c : Nat) =>
      pieceKeyCode (s.board.cell (r : Int) (c : Int))

/-- The castling-flag fragment of the key, as characters. -/
def flagsData (parts : List (Bool × Char)) : List Char :=
  parts.flatMap fun bc => if bc.1 then [bc.2] else []

/-! ## Helper lemmas about the embedded operations -/

/-! ### Helper lemmas about the embedded operations -/

theorem isValidMove_bounds {s : GameState} {fr fc tr tc : Int}
    (h : isValidMove s fr fc tr tc = true) :
    0 ≤ fr ∧ fr ≤ 7 ∧ 0 ≤ fc ∧ fc ≤ 7 ∧
    0 ≤ tr ∧ tr ≤ 7 ∧ 0 ≤ tc ∧ tc ≤ 7 := by
  unfold isValidMove at h
  split at h
  · simp at h
  · rename_i hcond
    omega

theorem isValidMove_elim {s : GameState} {fr fc tr tc : Int}
    (h : isValidMove s fr fc tr tc = true) :
    ∃ p, s.board.cell fr fc = some p ∧ p.color = s.currentPlayer ∧
      isValidPieceMove s.board s.fenEnPassant p fr fc tr tc = true := by
  unfold isValidMove at h
  split at h
  · simp at h
  · split at h
    · simp at h
    · rename_i p hp
      split at h
      · simp at h
      · split at h
        · simp at h
        · split at h
          · simp at h
          · rename_i hcol _ hgeom
            exact ⟨p, hp, by simpa using hcol, by simpa using hgeom⟩

theorem saveGameState_board (s : GameState) :
    (saveGameState s).board = s.board := rfl

theorem updateCastlingRights_pawn (s : GameState) {p : Piece}
    (hk : p.kind = PieceKind.pawn) (a b : Int) :
    updateCastlingRights s p a b = s := by
  unfold updateCastlingRights
  rw [hk]

theorem Board.cell_setCell_col_ne (b : Board) {c c' : Int} (r r' : Int)
    (v : Option Piece) (hc : 0 ≤ c) (hc' : 0 ≤ c') (hne : c ≠ c') :
    (b.setCell r c v).cell r' c' = b.cell r' c' := by
  have hcn : c.toNat ≠ c'.toNat := by omega
  unfold Board.cell Board.setCell
  split
  · by_cases heq : r.toNat = r'.toNat
    · rw [heq, List.get?_set_eq]
      cases hrow : b.get? r'.toNat with
      | none => simp
      | some row =>
          simp only [Option.map_eq_map, Option.map_some', Option.getD_some]
          rw [List.get?_set_ne _ _ hcn]
    · rw [List.get?_set_ne _ _ heq]
  · rfl

/-- JS `handleEnPassant` never touches the source FILE of the move: when it
fires, the removed pawn stands on the destination file, one square away
from the source file. -/
theorem handleEnPassant_cell_sourceFile (s : GameState) (pc : Option Piece)
    (fr fc tr tc r : Int) (hfc : 0 ≤ fc) (htc : 0 ≤ tc) :
    ((handleEnPassant s pc fr fc tr tc).2).board.cell r fc =
      s.board.cell r fc := by
  unfold handleEnPassant
  cases pc with
  | none => rfl
  | some p =>
      dsimp only
      split
      · split
        · rename_i hcond _
          have hne : tc ≠ fc := by
            rcases hcond with ⟨-, -, habs⟩
            omega
          exact Board.cell_setCell_col_ne _ _ _ _ htc hfc hne
        · rfl
      · rfl

/-- JS `handleEnPassant` only ever changes the board. -/
theorem handleEnPassant_shape (s : GameState) (pc : Option Piece)
    (fr fc tr tc : Int) :
    ∃ b', (handleEnPassant s pc fr fc tr tc).2 = { s with board := b' } := by
  unfold handleEnPassant
  cases pc with
  | none => exact ⟨s.board, rfl⟩
  | some p =>
      dsimp only
      split
      · split
        · exact ⟨_, rfl⟩
        · exact ⟨s.board, rfl⟩
      · exact ⟨s.board, rfl⟩

/-- JS `updateEnPassantTarget` only ever changes the en-passant field. -/
theorem updateEnPassantTarget_shape (s : GameState) (pc : Option Piece)
    (fr fc tr tc : Int) :
    ∃ e, updateEnPassantTarget s pc fr fc tr tc =
      { s with fenEnPassant := e } := by
  unfold updateEnPassantTarget
  cases pc with
  | none => exact ⟨_, rfl⟩
  | some p =>
      dsimp only
      split
      · exact ⟨_, rfl⟩
      · exact ⟨_, rfl⟩

/-- The row displacement of any pawn move accepted by `isValidPawnMove`:
a single step in the pawn's direction, or the double advance from the
starting rank. -/
theorem isValidPawnMove_rowDiff {b : Board} {ep : String} {p : Piece}
    {fr fc tr tc : Int}
    (h : isValidPawnMove b ep p fr fc tr tc = true) :
    tr - fr = (if p.color = Color.white then (-1 : Int) else 1) ∨
    (tr - fr = 2 * (if p.color = Color.white then (-1 : Int) else 1) ∧
     fr = (if p.color = Color.white then (6 : Int) else 1)) := by
  unfold isValidPawnMove at h
  by_cases hw : p.color = Color.white <;>
    [simp only [if_pos hw] at h ⊢; simp only [if_neg hw] at h ⊢] <;>
  · split at h
    · rename_i hc
      exact Or.inl hc.2.1
    · split at h
      · rename_i hc
        exact Or.inr ⟨hc.2.2.1, hc.2.1⟩
      · split at h
        · rename_i hc
          exact Or.inl hc.2
        · simp at h

/-- A promotion-rank landing row excludes the double advance. -/
theorem promotionMove_rowDiff_ne_two {b : Board} {ep : String} {p : Piece}
    {fr fc tr tc : Int}
    (h : isValidPawnMove b ep p fr fc tr tc = true)
    (hfar : (p.color = Color.white ∧ tr = 0) ∨
            (p.color = Color.black ∧ tr = 7)) :
    (tr - fr).natAbs ≠ 2 := by
  have hd := isValidPawnMove_rowDiff h
  rcases hfar with ⟨hc, htr⟩ | ⟨hc, htr⟩ <;> simp [hc] at hd <;> omega

/-- Over a well-formed en-passant string, a match pins the target row to
rank 6 (row 2) or rank 3 (row 5). -/
theorem epMatches_wf_rank {ep : String} {tr tc : Int}
    (hwf : epWellFormed ep = true) (hm : epMatches ep tr tc = true) :
    tr = 2 ∨ tr = 5 := by
  unfold epWellFormed at hwf
  unfold epMatches at hm
  split at hm
  · simp at hm
  · rename_i hne
    rw [if_neg hne] at hwf
    split at hwf
    · rename_i f r hdata
      simp only [Bool.and_eq_true, decide_eq_true_eq] at hwf
      obtain ⟨-, hr⟩ := hwf
      unfold epFileOf epRankOf at hm
      rw [hdata] at hm
      rcases hr with rfl | rfl <;> simp at hm <;> omega
    · simp at hwf

/-- When the en-passant comparison fails, `handleEnPassant` does nothing. -/
theorem handleEnPassant_not_fired {s : GameState} (pc : Option Piece)
    {fr fc tr tc : Int} (hm : epMatches s.fenEnPassant tr tc = false) :
    handleEnPassant s pc fr fc tr tc = (false, s) := by
  unfold handleEnPassant
  cases pc with
  | none => rfl
  | some p =>
      dsimp only
      split
      · rw [hm]
        simp
      · rfl

theorem isPawnPromotion_true {σ : GameState} {fr fc tr tc : Int} {p : Piece}
    (hc : σ.board.cell fr fc = some p) (hk : p.kind = PieceKind.pawn)
    (hfar : (p.color = Color.white ∧ tr = 0) ∨
            (p.color = Color.black ∧ tr = 7)) :
    isPawnPromotion σ fr fc tr tc = true := by
  unfold isPawnPromotion
  rw [hc]
  simpa [hk] using hfar

/-- On a validated non-castling move, `makeMove` runs the executed tail. -/
theorem makeMove_eq_execRegular {s : GameState} {fr fc tr tc : Int}
    {p : Piece}
    (hpend : s.pendingPromotion = none) (hover : s.isGameOver = false)
    (hpiece : s.board.cell fr fc = some p)
    (hncastle : isCastlingMove (some p) fr fc tr tc = false)
    (hvalid : isValidMove s fr fc tr tc = true) :
    makeMove s fr fc tr tc = some (execRegularMove s p fr fc tr tc) := by
  obtain ⟨h1, h2, -⟩ := isValidMove_bounds hvalid
  unfold makeMove
  rw [hpend, hover, hpiece]
  rw [if_neg (by simp), if_neg (by omega), if_neg (by simp [hncastle]),
      if_neg (by simp [hvalid])]

/-- The executed tail of a validated far-rank pawn move suspends into the
promotion result and records the pending promotion. -/
theorem execRegularMove_promotion {s : GameState} {p : Piece}
    {fr fc tr tc : Int}
    (hk : p.kind = PieceKind.pawn)
    (hcell : s.board.cell fr fc = some p)
    (hfc : 0 ≤ fc) (htc : 0 ≤ tc)
    (hfar : (p.color = Color.white ∧ tr = 0) ∨
            (p.color = Color.black ∧ tr = 7)) :
    ∃ s', execRegularMove s p fr fc tr tc = (MoveResult.promotion, s') ∧
      s'.pendingPromotion = some ⟨fr, fc, tr, tc, p.color⟩ := by
  unfold execRegularMove
  dsimp only
  rw [updateCastlingRights_pawn _ hk]
  set s3 := (handleEnPassant (saveGameState s) (some p) fr fc tr tc).2
    with hs3
  set s4 := updateEnPassantTarget s3 (some p) fr fc tr tc with hs4
  have hcell4 : s4.board.cell fr fc = some p := by
    obtain ⟨e4, he4⟩ := updateEnPassantTarget_shape s3 (some p) fr fc tr tc
    rw [hs4, he4]
    show s3.board.cell fr fc = some p
    rw [hs3, handleEnPassant_cell_sourceFile _ _ _ _ _ _ _ hfc htc,
      saveGameState_board, hcell]
  rw [if_pos (Or.inl hk)]
  have hpromo : isPawnPromotion { s4 with halfmoveClock := 0 } fr fc tr tc
      = true := isPawnPromotion_true hcell4 hk hfar
  rw [if_pos hpromo]
  exact ⟨_, rfl, rfl⟩

/-- JS `handleCastling` only returns the rejection result together with the
unchanged state. -/
theorem handleCastling_rejected {s s' : GameState} {side : CastleSide}
    (h : handleCastling s side = (MoveResult.rejected, s')) : s' = s := by
  unfold handleCastling at h
  by_cases hc : canCastle s s.currentPlayer side = true
  · rw [if_neg (not_not_intro hc)] at h
    exfalso
    have hfst := congrArg Prod.fst h
    simp at hfst
  · rw [if_pos hc] at h
    simp only [Prod.mk.injEq] at h
    exact h.2.symm

/-- The executed tail never returns the rejection result. -/
theorem execRegularMove_fst (s : GameState) (p : Piece)
    (fr fc tr tc : Int) :
    (execRegularMove s p fr fc tr tc).1 = MoveResult.promotion ∨
    (execRegularMove s p fr fc tr tc).1 = MoveResult.completed := by
  unfold execRegularMove
  dsimp only
  repeat' split
  all_goals simp

/-- JS `handleCastling` returns the rejection or the completion result. -/
theorem handleCastling_fst (s : GameState) (side : CastleSide) :
    (handleCastling s side).1 = MoveResult.rejected ∨
    (handleCastling s side).1 = MoveResult.completed := by
  unfold handleCastling
  by_cases hc : canCastle s s.currentPlayer side = true
  · rw [if_neg (not_not_intro hc)]
    right
    rfl
  · rw [if_pos hc]
    left
    rfl

/-- JS `updateCastlingRights` only ever changes the rights fields. -/
theorem updateCastlingRights_shape (s : GameState) (p : Piece) (a b : Int) :
    ∃ cr fc', updateCastlingRights s p a b =
      { s with castlingRights := cr, fenCastling := fc' } := by
  unfold updateCastlingRights
  split
  · split
    · exact ⟨_, _, rfl⟩
    · exact ⟨_, _, rfl⟩
  · split
    · split
      · exact ⟨_, _, rfl⟩
      · split
        · exact ⟨_, _, rfl⟩
        · exact ⟨_, _, by rw [show ({ s with castlingRights := s.castlingRights, fenCastling := s.fenCastling } : GameState) = s from rfl]⟩
    · split
      · exact ⟨_, _, rfl⟩
      · split
        · exact ⟨_, _, rfl⟩
        · exact ⟨_, _, by rw [show ({ s with castlingRights := s.castlingRights, fenCastling := s.fenCastling } : GameState) = s from rfl]⟩
  · exact ⟨_, _, by rw [show ({ s with castlingRights := s.castlingRights, fenCastling := s.fenCastling } : GameState) = s from rfl]⟩

/-- Inverting `makeMove` on a promotion result: the move went through the
validated regular path. -/
theorem makeMove_promotion_inv {s s' : GameState} {fr fc tr tc : Int}
    (h : makeMove s fr fc tr tc = some (MoveResult.promotion, s')) :
    ∃ p, s.board.cell fr fc = some p ∧
      isValidMove s fr fc tr tc = true ∧
      execRegularMove s p fr fc tr tc = (MoveResult.promotion, s') := by
  unfold makeMove at h
  repeat' first
    | split at h
    | dsimp only at h
  all_goals
    first
    | (exfalso; simp at h; done)
    | (exfalso
       rcases handleCastling_fst s _ with h1 | h1 <;>
         rw [Option.some.inj h] at h1 <;> simp at h1)
    | exact ⟨_, by assumption, not_not.mp (by assumption),
        Option.some.inj h⟩

/-- The promotion test evaluates on the piece standing on the source
square. -/
theorem isPawnPromotion_eq {σ : GameState} {fr fc tr tc : Int} {p : Piece}
    (hc : σ.board.cell fr fc = some p) :
    isPawnPromotion σ fr fc tr tc =
      decide (p.kind = PieceKind.pawn ∧
        ((p.color = Color.white ∧ tr = 0) ∨
         (p.color = Color.black ∧ tr = 7))) := by
  unfold isPawnPromotion
  rw [hc]

theorem updateEnPassantTarget_noDouble {σ : GameState} {p : Piece}
    {fr fc tr tc : Int}
    (hnd : ¬ (p.kind = PieceKind.pawn ∧ (tr - fr).natAbs = 2)) :
    updateEnPassantTarget σ (some p) fr fc tr tc =
      { σ with fenEnPassant := "-" } := by
  unfold updateEnPassantTarget
  dsimp only
  rw [if_neg hnd]

/-- When a well-formed en-passant string is in force, a move landing on
row 0 or row 7 cannot match the en-passant target. -/
theorem epMatches_false_of_far {ep : String} {tr tc : Int}
    (hwf : epWellFormed ep = true) (hfar : tr = 0 ∨ tr = 7) :
    epMatches ep tr tc = false := by
  cases hm : epMatches ep tr tc with
  | false => rfl
  | true => rcases epMatches_wf_rank hwf hm with h | h <;> omega

/-- Forward characterization: the executed tail of a validated far-rank
pawn move, over a well-formed en-passant string, produces exactly the
suspended state. -/
theorem execRegularMove_promotion_full {s : GameState} {p : Piece}
    {fr fc tr tc : Int}
    (hwf : epWellFormed s.fenEnPassant = true)
    (hvalid : isValidMove s fr fc tr tc = true)
    (hcell : s.board.cell fr fc = some p)
    (hk : p.kind = PieceKind.pawn)
    (hfar : (p.color = Color.white ∧ tr = 0) ∨
            (p.color = Color.black ∧ tr = 7)) :
    execRegularMove s p fr fc tr tc =
      (MoveResult.promotion,
       { saveGameState s with
         fenEnPassant := "-", halfmoveClock := 0,
         pendingPromotion := some ⟨fr, fc, tr, tc, p.color⟩ }) := by
  unfold execRegularMove
  dsimp only
  rw [updateCastlingRights_pawn _ hk]
  have hnoep : handleEnPassant (saveGameState s) (some p) fr fc tr tc =
      (false, saveGameState s) := by
    apply handleEnPassant_not_fired
    show epMatches s.fenEnPassant tr tc = false
    exact epMatches_false_of_far hwf
      (by rcases hfar with ⟨-, h0⟩ | ⟨-, h7'⟩ <;> omega)
  rw [hnoep]
  dsimp only
  obtain ⟨p', hp', -, hgeom⟩ := isValidMove_elim hvalid
  rw [hcell] at hp'
  injection hp' with hp'
  subst hp'
  have hpawn : isValidPawnMove s.board s.fenEnPassant p fr fc tr tc
      = true := by
    unfold isValidPieceMove at hgeom
    rw [hk] at hgeom
    exact hgeom
  have hnd := promotionMove_rowDiff_ne_two hpawn hfar
  rw [updateEnPassantTarget_noDouble (fun hcontra => hnd hcontra.2)]
  rw [if_pos (Or.inl hk)]
  have hc5 : ({ { saveGameState s with fenEnPassant := "-" } with
      halfmoveClock := 0 } : GameState).board.cell fr fc = some p := hcell
  rw [if_pos (isPawnPromotion_true hc5 hk hfar)]

/-- Forward characterization: when the moved piece is not a pawn landing
on its far rank, the executed tail completes the move. -/
theorem execRegularMove_completed_of_notPromo {s : GameState} {p : Piece}
    {fr fc tr tc : Int}
    (hfc : 0 ≤ fc) (htc : 0 ≤ tc)
    (hcell : s.board.cell fr fc = some p)
    (hnp : ¬ (p.kind = PieceKind.pawn ∧
        ((p.color = Color.white ∧ tr = 0) ∨
         (p.color = Color.black ∧ tr = 7)))) :
    (execRegularMove s p fr fc tr tc).1 = MoveResult.completed := by
  unfold execRegularMove
  dsimp only
  set s2 := updateCastlingRights (saveGameState s) p fr fc with hs2
  set s3 := (handleEnPassant s2 (some p) fr fc tr tc).2 with hs3
  set s4 := updateEnPassantTarget s3 (some p) fr fc tr tc with hs4
  have hcell4 : s4.board.cell fr fc = some p := by
    obtain ⟨e4, he4⟩ := updateEnPassantTarget_shape s3 (some p) fr fc tr tc
    rw [hs4, he4]
    show s3.board.cell fr fc = some p
    rw [hs3, handleEnPassant_cell_sourceFile _ _ _ _ _ _ _ hfc htc]
    obtain ⟨cr, fcg, hshape⟩ :=
      updateCastlingRights_shape (saveGameState s) p fr fc
    rw [hs2, hshape]
    show (saveGameState s).board.cell fr fc = some p
    rw [saveGameState_board, hcell]
  have hcell5 : ∀ n : Int,
      ({ s4 with halfmoveClock := n } : GameState).board.cell fr fc
        = some p := fun _ => hcell4
  split
  · rw [if_neg (by rw [isPawnPromotion_eq (hcell5 0)]; simp [hnp])]
  · rw [if_neg (by rw [isPawnPromotion_eq (hcell5 _)]; simp [hnp])]

/-- Inverting the executed tail on a promotion result, over a well-formed
en-passant string: the moved piece was a far-rank pawn and the suspended
state has exactly the frame shape. -/
theorem execRegularMove_promotion_inv {s : GameState} {p : Piece}
    {fr fc tr tc : Int} {s' : GameState}
    (hwf : epWellFormed s.fenEnPassant = true)
    (hvalid : isValidMove s fr fc tr tc = true)
    (hcell : s.board.cell fr fc = some p)
    (h : execRegularMove s p fr fc tr tc = (MoveResult.promotion, s')) :
    p.kind = PieceKind.pawn ∧
    ((p.color = Color.white ∧ tr = 0) ∨
     (p.color = Color.black ∧ tr = 7)) ∧
    s' = { saveGameState s with
           fenEnPassant := "-", halfmoveClock := 0,
           pendingPromotion := some ⟨fr, fc, tr, tc, p.color⟩ } := by
  obtain ⟨-, -, h3, -, -, -, h7, -⟩ := isValidMove_bounds hvalid
  by_cases hnp : p.kind = PieceKind.pawn ∧
      ((p.color = Color.white ∧ tr = 0) ∨ (p.color = Color.black ∧ tr = 7))
  · obtain ⟨hk, hfar⟩ := hnp
    have hfull := execRegularMove_promotion_full hwf hvalid hcell hk hfar
    rw [hfull] at h
    simp only [Prod.mk.injEq] at h
    exact ⟨hk, hfar, h.2.symm⟩
  · exfalso
    have hcompleted :=
      execRegularMove_completed_of_notPromo h3 h7 hcell hnp
    rw [h] at hcompleted
    simp at hcompleted

/-- The game-end recomputation never changes the board. -/
theorem checkGameEndConditions_board (σ : GameState) :
    ((checkGameEndConditions σ).2).board = σ.board := by
  unfold checkGameEndConditions
  dsimp only
  repeat' split
  all_goals rfl


/-- If some list element maps to `some`, `findSome?` returns a value. -/
theorem findSome?_isSome_of_mem {α β : Type} {f : α → Option β}
    {l : List α} {a : α} {b : β} (ha : a ∈ l) (hfa : f a = some b) :
    ∃ c, l.findSome? f = some c := by
  induction l with
  | nil => cases ha
  | cons x xs ih =>
      cases hx : f x with
      | some y => exact ⟨y, by simp [List.findSome?, hx]⟩
      | none =>
          rcases List.mem_cons.mp ha with rfl | hmem
          · rw [hfa] at hx
            cases hx
          · obtain ⟨c, hc⟩ := ih hmem
            exact ⟨c, by simp [List.findSome?, hx, hc]⟩

/-- A value returned by `findSome?` comes from some list element. -/
theorem exists_of_findSome?_mem {α β : Type} {f : α → Option β}
    {l : List α} {c : β} (h : l.findSome? f = some c) :
    ∃ a, a ∈ l ∧ f a = some c := by
  induction l with
  | nil => simp [List.findSome?] at h
  | cons x xs ih =>
      cases hx : f x with
      | some y =>
          rw [show List.findSome? f (x :: xs) = some y by
            simp [List.findSome?, hx]] at h
          exact ⟨x, List.mem_cons_self x xs, by rw [hx, h]⟩
      | none =>
          rw [show List.findSome? f (x :: xs) = List.findSome? f xs by
            simp [List.findSome?, hx]] at h
          obtain ⟨a, ha, hfa⟩ := ih h
          exact ⟨a, List.mem_cons_of_mem x ha, hfa⟩


/-! ### Machinery for the fingerprint characterization (C8) -/

theorem pieceKeyCode_eq_iff : ∀ x y : Option Piece,
    pieceKeyCode x = pieceKeyCode y ↔ sameKeyPiece x y := by
  rintro (_ | ⟨sa, ka, ca⟩) (_ | ⟨sb, kb, cb⟩)
  · simp [pieceKeyCode, sameKeyPiece]
  · cases kb <;> cases cb <;>
      simp [pieceKeyCode, sameKeyPiece, colorInitial, kindInitial] <;> decide
  · cases ka <;> cases ca <;>
      simp [pieceKeyCode, sameKeyPiece, colorInitial, kindInitial] <;> decide
  · cases ka <;> cases ca <;> cases kb <;> cases cb <;>
      simp [pieceKeyCode, sameKeyPiece, colorInitial, kindInitial] <;> decide

theorem pieceKeyCode_data_length (x : Option Piece) :
    (pieceKeyCode x).data.length = 2 := by
  rcases x with _ | ⟨sym, k, c⟩
  · rfl
  · cases k <;> cases c <;> rfl

theorem string_data_inj {a b : String} (h : a.data = b.data) : a = b := by
  cases a
  cases b
  dsimp only at h
  rw [h]

theorem data_foldl_append (l : List String) :
    ∀ acc : String, (l.foldl (· ++ ·) acc).data =
      acc.data ++ (l.map String.data).flatten := by
  induction l with
  | nil => intro acc; simp
  | cons x xs ih =>
      intro acc
      rw [List.foldl_cons, ih (acc ++ x)]
      simp [String.data_append]

theorem data_join (l : List String) :
    (String.join l).data = (l.map String.data).flatten := by
  have h := data_foldl_append l ""
  simp only [String.data_append] at h
  calc (String.join l).data
      = (l.foldl (· ++ ·) "").data := rfl
    _ = ("" : String).data ++ (l.map String.data).flatten := h
    _ = (l.map String.data).flatten := by simp

theorem flatten_map_flatten {α : Type} (l : List α)
    (f : α → List (List Char)) :
    (l.map fun a => (f a).flatten).flatten = (l.flatMap f).flatten := by
  induction l with
  | nil => rfl
  | cons x xs ih => simp [List.flatMap_cons, ih]

theorem boardPart_data (s : GameState) :
    (String.join ((List.range 8).map fun (r : Nat) =>
      String.join ((List.range 8).map fun (c : Nat) =>
        pieceKeyCode (s.board.cell (r : Int) (c : Int))))).data =
    ((boardCodes s).map String.data).flatten := by
  rw [data_join, List.map_map]
  unfold boardCodes
  rw [List.map_flatMap]
  rw [← flatten_map_flatten]
  congr 1
  apply List.map_congr_left
  intro r _
  simp [data_join, List.map_map, Function.comp]

theorem generatePositionKey_data (s : GameState) :
    (generatePositionKey s).data =
      ((boardCodes s).map String.data).flatten ++
      ((colorInitial s.currentPlayer).data ++
       ((castlingKeyPart s.fenCastling).data ++ s.fenEnPassant.data)) := by
  unfold generatePositionKey
  rw [String.data_append, String.data_append, String.data_append,
    boardPart_data, List.append_assoc, List.append_assoc]

theorem blocks_split : ∀ (l1 l2 : List (List Char)) (r1 r2 : List Char),
    (∀ x ∈ l1, x.length = 2) → (∀ x ∈ l2, x.length = 2) →
    l1.length = l2.length →
    l1.flatten ++ r1 = l2.flatten ++ r2 → l1 = l2 ∧ r1 = r2 := by
  intro l1
  induction l1 with
  | nil =>
      intro l2 r1 r2 _ _ hlen h
      cases l2 with
      | nil => exact ⟨rfl, by simpa using h⟩
      | cons b t => simp at hlen
  | cons a t ih =>
      intro l2 r1 r2 hl1 hl2 hlen h
      cases l2 with
      | nil => simp at hlen
      | cons b t2 =>
          obtain ⟨x, y, rfl⟩ := List.length_eq_two.mp (hl1 a (by simp))
          obtain ⟨u, v, rfl⟩ := List.length_eq_two.mp (hl2 b (by simp))
          simp only [List.flatten_cons, List.cons_append, List.nil_append,
            List.append_assoc] at h
          rw [List.cons.injEq, List.cons.injEq] at h
          obtain ⟨rfl, rfl, h⟩ := h
          obtain ⟨ht, hr⟩ := ih t2 r1 r2
            (fun z hz => hl1 z (by simp [hz]))
            (fun z hz => hl2 z (by simp [hz]))
            (by simpa using hlen) h
          exact ⟨by rw [ht], hr⟩

theorem map_data_inj : ∀ {l1 l2 : List String},
    l1.map String.data = l2.map String.data → l1 = l2 := by
  intro l1
  induction l1 with
  | nil =>
      intro l2 h
      cases l2 with
      | nil => rfl
      | cons y ys => simp at h
  | cons x xs ih =>
      intro l2 h
      cases l2 with
      | nil => simp at h
      | cons y ys =>
          simp only [List.map_cons, List.cons.injEq] at h
          rw [string_data_inj h.1, ih h.2]

theorem flagsData_cons (b : Bool) (c : Char) (rest : List (Bool × Char)) :
    flagsData ((b, c) :: rest) =
      (if b then [c] else []) ++ flagsData rest := by
  simp [flagsData]

theorem castlingKeyPart_data (f : FenCastling) :
    (castlingKeyPart f).data =
      flagsData [(f.K, 'K'), (f.Q, 'Q'), (f.k, 'k'), (f.q, 'q')] := by
  rcases f with ⟨bK, bQ, bk, bq⟩
  cases bK <;> cases bQ <;> cases bk <;> cases bq <;> rfl

theorem flagsData_head (parts : List (Bool × Char)) :
    ∀ (tail : List Char) (d : Char),
      (flagsData parts ++ tail).head? = some d →
      d ∈ parts.map Prod.snd ∨ tail.head? = some d := by
  induction parts with
  | nil =>
      intro tail d hd
      right
      simpa [flagsData] using hd
  | cons bc rest ih =>
      intro tail d hd
      obtain ⟨b, c⟩ := bc
      rw [flagsData_cons] at hd
      cases b
      · simp only [Bool.false_eq_true, if_false, List.nil_append] at hd
        rcases ih tail d hd with h | h
        · exact Or.inl (by simp [h])
        · exact Or.inr h
      · simp only [if_pos, List.singleton_append, List.cons_append,
          List.head?_cons, Option.some.injEq] at hd
        left
        simp [← hd]

theorem mem_snd_zip {w : List Bool} {rest : List Char} {d : Char}
    (h : d ∈ (w.zip rest).map Prod.snd) : d ∈ rest := by
  obtain ⟨⟨b, c⟩, hmem, rfl⟩ := List.mem_map.mp h
  exact (List.of_mem_zip hmem).2

theorem flags_split : ∀ (parts : List Char), parts.Nodup →
    ∀ (v1 v2 : List Bool) (t1 t2 : List Char),
    v1.length = parts.length → v2.length = parts.length →
    (∀ d, t1.head? = some d → d ∉ parts) →
    (∀ d, t2.head? = some d → d ∉ parts) →
    flagsData (v1.zip parts) ++ t1 = flagsData (v2.zip parts) ++ t2 →
    v1 = v2 ∧ t1 = t2 := by
  intro parts
  induction parts with
  | nil =>
      intro _ v1 v2 t1 t2 h1 h2 _ _ h
      rw [List.length_nil, List.length_eq_zero] at h1 h2
      subst h1
      subst h2
      exact ⟨rfl, by simpa [flagsData] using h⟩
  | cons c rest ih =>
      intro hnd v1 v2 t1 t2 h1 h2 ht1 ht2 h
      rcases v1 with _ | ⟨b1, w1⟩
      · simp at h1
      rcases v2 with _ | ⟨b2, w2⟩
      · simp at h2
      rw [List.zip_cons_cons, List.zip_cons_cons, flagsData_cons,
        flagsData_cons] at h
      have hndrest : rest.Nodup := (List.nodup_cons.mp hnd).2
      have hcrest : c ∉ rest := (List.nodup_cons.mp hnd).1
      have ht1' : ∀ d, t1.head? = some d → d ∉ rest := fun d hd hmem =>
        ht1 d hd (List.mem_cons_of_mem _ hmem)
      have ht2' : ∀ d, t2.head? = some d → d ∉ rest := fun d hd hmem =>
        ht2 d hd (List.mem_cons_of_mem _ hmem)
      have hlen1 : w1.length = rest.length := by simpa using h1
      have hlen2 : w2.length = rest.length := by simpa using h2
      cases b1 <;> cases b2 <;>
        simp only [Bool.false_eq_true, if_false, if_pos,
          List.singleton_append, List.nil_append, List.cons_append] at h
      · obtain ⟨hw, hts⟩ := ih hndrest w1 w2 t1 t2 hlen1 hlen2 ht1' ht2' h
        exact ⟨by rw [hw], hts⟩
      · exfalso
        have hhead : (flagsData (w1.zip rest) ++ t1).head? = some c := by
          rw [h]
          rfl
        rcases flagsData_head _ _ _ hhead with hm | hm
        · exact hcrest (mem_snd_zip hm)
        · exact ht1 c hm (List.mem_cons_self c rest)
      · exfalso
        have hhead : (flagsData (w2.zip rest) ++ t2).head? = some c := by
          rw [← h]
          rfl
        rcases flagsData_head _ _ _ hhead with hm | hm
        · exact hcrest (mem_snd_zip hm)
        · exact ht2 c hm (List.mem_cons_self c rest)
      · rw [List.cons.injEq] at h
        obtain ⟨hw, hts⟩ := ih hndrest w1 w2 t1 t2 hlen1 hlen2 ht1' ht2' h.2
        exact ⟨by rw [hw], hts⟩

theorem epWellFormed_elim {ep : String} (h : epWellFormed ep = true) :
    ep.data = ['-'] ∨ ∃ f r, ep.data = [f, r] ∧
      f ∈ (['a', 'b', 'c', 'd', 'e', 'f', 'g', 'h'] : List Char) := by
  unfold epWellFormed at h
  split at h
  · rename_i he
    left
    rw [he]
  · split at h
    · rename_i f r hdata
      right
      refine ⟨f, r, hdata, ?_⟩
      have := (Bool.and_eq_true _ _).mp h
      simpa using this.1
    · cases h

theorem ep_head_not_flag {ep : String} (hwf : epWellFormed ep = true) :
    ∀ d, ep.data.head? = some d →
      d ∉ (['K', 'Q', 'k', 'q'] : List Char) := by
  intro d hd
  rcases epWellFormed_elim hwf with h | ⟨f, r, h, hf⟩ <;> rw [h] at hd <;>
    simp only [List.head?_cons, Option.some.injEq] at hd <;> subst hd
  · decide
  · fin_cases hf <;> decide

theorem player_split {c1 c2 : Color} {x1 x2 : List Char}
    (h : (colorInitial c1).data ++ x1 = (colorInitial c2).data ++ x2) :
    c1 = c2 ∧ x1 = x2 := by
  cases c1 <;> cases c2 <;>
    simp only [colorInitial,
      show ("w" : String).data = ['w'] from rfl,
      show ("b" : String).data = ['b'] from rfl,
      List.singleton_append, List.cons.injEq] at h <;>
    first
    | exact ⟨rfl, h.2⟩
    | exact ⟨rfl, h⟩
    | exact absurd h.1 (by decide)
    | exact h.elim

theorem fenCastling_ext {a b : FenCastling} (hK : a.K = b.K)
    (hQ : a.Q = b.Q) (hk : a.k = b.k) (hq : a.q = b.q) : a = b := by
  cases a
  cases b
  dsimp only at hK hQ hk hq
  rw [hK, hQ, hk, hq]

theorem boardCodes_sq_length (s : GameState) :
    ∀ x ∈ (boardCodes s).map String.data, x.length = 2 := by
  intro x hx
  simp only [boardCodes, List.mem_map, List.mem_flatMap] at hx
  obtain ⟨str, ⟨r, -, hstr⟩, rfl⟩ := hx
  obtain ⟨c, -, hc⟩ := hstr
  subst hc
  exact pieceKeyCode_data_length _

theorem boardCodes_length (s : GameState) : (boardCodes s).length = 64 := by
  rfl

theorem flatMap_congr {α β : Type} {l : List α} {f g : α → List β}
    (h : ∀ a ∈ l, f a = g a) : l.flatMap f = l.flatMap g := by
  induction l with
  | nil => rfl
  | cons x xs ih =>
      rw [List.flatMap_cons, List.flatMap_cons, h x (by simp),
        ih fun a ha => h a (by simp [ha])]


theorem boardCodes_eq_iff (s1 s2 : GameState) :
    boardCodes s1 = boardCodes s2 ↔
      ∀ r ∈ List.range 8, ∀ c ∈ List.range 8,
        pieceKeyCode (s1.board.cell (r : Int) (c : Int)) =
        pieceKeyCode (s2.board.cell (r : Int) (c : Int)) := by
  constructor
  · intro h r hr c hc
    fin_cases hr <;> fin_cases hc
    · exact Option.some.inj (congrArg (fun l => l.get? 0) h)
    · exact Option.some.inj (congrArg (fun l => l.get? 1) h)
    · exact Option.some.inj (congrArg (fun l => l.get? 2) h)
    · exact Option.some.inj (congrArg (fun l => l.get? 3) h)
    · exact Option.some.inj (congrArg (fun l => l.get? 4) h)
    · exact Option.some.inj (congrArg (fun l => l.get? 5) h)
    · exact Option.some.inj (congrArg (fun l => l.get? 6) h)
    · exact Option.some.inj (congrArg (fun l => l.get? 7) h)
    · exact Option.some.inj (congrArg (fun l => l.get? 8) h)
    · exact Option.some.inj (congrArg (fun l => l.get? 9) h)
    · exact Option.some.inj (congrArg (fun l => l.get? 10) h)
    · exact Option.some.inj (congrArg (fun l => l.get? 11) h)
    · exact Option.some.inj (congrArg (fun l => l.get? 12) h)
    · exact Option.some.inj (congrArg (fun l => l.get? 13) h)
    · exact Option.some.inj (congrArg (fun l => l.get? 14) h)
    · exact Option.some.inj (congrArg (fun l => l.get? 15) h)
    · exact Option.some.inj (congrArg (fun l => l.get? 16) h)
    · exact Option.some.inj (congrArg (fun l => l.get? 17) h)
    · exact Option.some.inj (congrArg (fun l => l.get? 18) h)
    · exact Option.some.inj (congrArg (fun l => l.get? 19) h)
    · exact Option.some.inj (congrArg (fun l => l.get? 20) h)
    · exact Option.some.inj (congrArg (fun l => l.get? 21) h)
    · exact Option.some.inj (congrArg (fun l => l.get? 22) h)
    · exact Option.some.inj (congrArg (fun l => l.get? 23) h)
    · exact Option.some.inj (congrArg (fun l => l.get? 24) h)
    · exact Option.some.inj (congrArg (fun l => l.get? 25) h)
    · exact Option.some.inj (congrArg (fun l => l.get? 26) h)
    · exact Option.some.inj (congrArg (fun l => l.get? 27) h)
    · exact Option.some.inj (congrArg (fun l => l.get? 28) h)
    · exact Option.some.inj (congrArg (fun l => l.get? 29) h)
    · exact Option.some.inj (congrArg (fun l => l.get? 30) h)
    · exact Option.some.inj (congrArg (fun l => l.get? 31) h)
    · exact Option.some.inj (congrArg (fun l => l.get? 32) h)
    · exact Option.some.inj (congrArg (fun l => l.get? 33) h)
    · exact Option.some.inj (congrArg (fun l => l.get? 34) h)
    · exact Option.some.inj (congrArg (fun l => l.get? 35) h)
    · exact Option.some.inj (congrArg (fun l => l.get? 36) h)
    · exact Option.some.inj (congrArg (fun l => l.get? 37) h)
    · exact Option.some.inj (congrArg (fun l => l.get? 38) h)
    · exact Option.some.inj (congrArg (fun l => l.get? 39) h)
    · exact Option.some.inj (congrArg (fun l => l.get? 40) h)
    · exact Option.some.inj (congrArg (fun l => l.get? 41) h)
    · exact Option.some.inj (congrArg (fun l => l.get? 42) h)
    · exact Option.some.inj (congrArg (fun l => l.get? 43) h)
    · exact Option.some.inj (congrArg (fun l => l.get? 44) h)
    · exact Option.some.inj (congrArg (fun l => l.get? 45) h)
    · exact Option.some.inj (congrArg (fun l => l.get? 46) h)
    · exact Option.some.inj (congrArg (fun l => l.get? 47) h)
    · exact Option.some.inj (congrArg (fun l => l.get? 48) h)
    · exact Option.some.inj (congrArg (fun l => l.get? 49) h)
    · exact Option.some.inj (congrArg (fun l => l.get? 50) h)
    · exact Option.some.inj (congrArg (fun l => l.get? 51) h)
    · exact Option.some.inj (congrArg (fun l => l.get? 52) h)
    · exact Option.some.inj (congrArg (fun l => l.get? 53) h)
    · exact Option.some.inj (congrArg (fun l => l.get? 54) h)
    · exact Option.some.inj (congrArg (fun l => l.get? 55) h)
    · exact Option.some.inj (congrArg (fun l => l.get? 56) h)
    · exact Option.some.inj (congrArg (fun l => l.get? 57) h)
    · exact Option.some.inj (congrArg (fun l => l.get? 58) h)
    · exact Option.some.inj (congrArg (fun l => l.get? 59) h)
    · exact Option.some.inj (congrArg (fun l => l.get? 60) h)
    · exact Option.some.inj (congrArg (fun l => l.get? 61) h)
    · exact Option.some.inj (congrArg (fun l => l.get? 62) h)
    · exact Option.some.inj (congrArg (fun l => l.get? 63) h)
  · intro h
    unfold boardCodes
    apply flatMap_congr
    intro r hr
    apply List.map_congr_left
    intro c hc
    exact h r hr c hc


/-! ## Claim theorems -/

set_option maxRecDepth 100000 in
set_option maxHeartbeats 4000000 in
/-- C1: the claim fails on the code.  The thirteen moves of `c1Moves` are
all accepted and completed by `makeMove` from the starting position (so
the final state is reachable), the last of them being white's en-passant
capture e5xd6; afterwards white's own king on h5 is attacked by the black
queen on a5 (it is black to move).  `isValidMove` accepted the capture
because its scratch board does not remove the en-passant-captured pawn,
so the discovered attack along the fifth rank was invisible to the
check-safety test. -/
theorem c1_enPassantCaptureLeavesMoverInCheck :
    (playMoves initialState c1Moves).map
      (fun s => (isInCheck s Color.white, s.currentPlayer)) =
    some (true, Color.black) := by decide

set_option maxRecDepth 100000 in
set_option maxHeartbeats 4000000 in
/-- C2: the claim fails on the code.  After the ten accepted moves of
`c2Moves` white's kingside rook has been captured on its home square h1
(the black bishop that took it is still standing there), yet
`castlingRights.white.rookKing` is still `true`, and the O-O attempt is
accepted: `makeMove` completes, placing the white king on g1 and — as
"the rook" — the black bishop from h1 on f1. -/
theorem c2_castlingAcceptedWithCapturedRook :
    (playMoves initialState c2Moves).map
      (fun s =>
        (s.board.cell 7 7, s.castlingRights.white.rookKing,
         (makeMove s 7 4 7 6).map
           (fun r => (r.1, r.2.board.cell 7 6, r.2.board.cell 7 5)))) =
    some (some (mkPiece PieceKind.bishop Color.black), true,
          some (MoveResult.completed,
                some (mkPiece PieceKind.king Color.white),
                some (mkPiece PieceKind.bishop Color.black))) := by rfl

set_option maxRecDepth 100000 in
set_option maxHeartbeats 4000000 in
/-- C5: the claim fails on the code.  After the six accepted moves of
`c5Moves` the en-passant target is "d6" (set by black's double advance
3...d5); white's castling move O-O is then accepted and completed, but
`handleCastling` never touches `fenEnPassant`, so the target is STILL
"d6" one completed move later, with black to move — the target survives
a second ply. -/
theorem c5_epTargetSurvivesCastling :
    (playMoves initialState c5Moves).map
      (fun s =>
        (s.fenEnPassant,
         (makeMove s 7 4 7 6).map
           (fun r => (r.1, r.2.fenEnPassant, r.2.currentPlayer,
                      r.2.moveHistory.getLast?)))) =
    some ("d6", some (MoveResult.completed, "d6", Color.black,
                      some "O-O")) := by rfl

set_option maxRecDepth 100000 in
set_option maxHeartbeats 4000000 in
/-- C6: the claim fails on the code.  After the six accepted moves of
`c6Moves` the halfmove clock is 3; white's castling move O-O is then
accepted and completed, but `handleCastling` never touches
`halfmoveClock`, so the clock is still 3 after the completed castling
move instead of the 4 the claim requires. -/
theorem c6_halfmoveClockUnchangedByCastling :
    (playMoves initialState c6Moves).map
      (fun s =>
        (s.halfmoveClock,
         (makeMove s 7 4 7 6).map
           (fun r => (r.1, r.2.halfmoveClock, r.2.moveHistory.getLast?)))) =
    some (3, some (MoveResult.completed, 3, some "O-O")) := by decide

set_option maxRecDepth 100000 in
set_option maxHeartbeats 4000000 in
/-- C7: the claim fails on the code.  In `c7State` white's O-O is accepted
and completed, and the resulting position is stalemate for black (zero
legal moves, king not in check) — but `handleCastling` returns without
calling `checkGameEndConditions`, so the game is NOT marked over and no
draw outcome is set. -/
theorem c7_castlingSkipsGameEndRecomputation :
    (makeMove c7State 7 4 7 6).map
      (fun r =>
        (r.1, r.2.isGameOver, r.2.gameWinner,
         (getAllLegalMoves r.2).length, isInCheck r.2 Color.black,
         r.2.currentPlayer)) =
    some (MoveResult.completed, false, none, 0, false, Color.black) := by
  decide

/-- C4, counterexample: a move attempt whose `fromRow` is out of range
makes `makeMove` throw (the unguarded read `this.board[8][0]`), modelled
by the `none` result — not a rejection result. -/
theorem c4_outOfRangeFromRowThrows :
    makeMove initialState 8 0 0 0 = none := by decide

/-- C8, counterexample: two states that agree on side to move, castling
flags and en-passant target but whose piece layouts differ — a white KING
versus a white KNIGHT on d5 (and on e1) — receive the SAME position key,
because `piece.type[0]` maps both `'king'` and `'knight'` to `'k'`. -/
theorem c8_kingKnightFingerprintCollision :
    generatePositionKey c8StateA = generatePositionKey c8StateB ∧
    c8StateA.board ≠ c8StateB.board ∧
    (c8StateA.board.cell 3 3).map Piece.kind ≠
      (c8StateB.board.cell 3 3).map Piece.kind ∧
    c8StateA.currentPlayer = c8StateB.currentPlayer ∧
    c8StateA.fenCastling = c8StateB.fenCastling ∧
    c8StateA.fenEnPassant = c8StateB.fenEnPassant := by decide

set_option maxRecDepth 100000 in
set_option maxHeartbeats 1000000 in
/-- C9, counterexample: in `c9State` BOTH white knights (a4 and e4) can
legally reach c3, yet resolving the undisambiguated piece-move token
"Nc3" does not fail: `findPieceForMove` returns the first (row-major)
candidate, the a4 knight, and `handlePieceMove` executes the move — the
engine guesses instead of rejecting the ambiguous input. -/
theorem c9_ambiguousTokenIsGuessedNotRejected :
    isValidMove c9State 4 0 5 2 = true ∧
    isValidMove c9State 4 4 5 2 = true ∧
    findPieceForMove c9State "n" none 5 2 =
      some ⟨4, 0, mkPiece PieceKind.knight Color.white⟩ ∧
    (handlePieceMove c9State "n" none 5 2).map (fun r => r.1) =
      some MoveResult.completed := by decide


/-- C3: the claim holds.  In any state with no pending promotion and the
game not over, a move of a pawn that `isValidMove` accepts and that lands
on the far rank (row 0 for white, row 7 for black) makes `makeMove`
return the distinct promotion result and record `pendingPromotion`; and
while any promotion is pending, every `makeMove` call — with any
coordinates whatsoever — returns the rejection result with the state
unchanged. -/
theorem c3_farRankPawnMoveSuspendsUntilResolved (s : GameState)
    (fr fc tr tc : Int) (p : Piece)
    (hpend : s.pendingPromotion = none) (hover : s.isGameOver = false)
    (hpiece : s.board.cell fr fc = some p) (hk : p.kind = PieceKind.pawn)
    (hvalid : isValidMove s fr fc tr tc = true)
    (hfar : (p.color = Color.white ∧ tr = 0) ∨
            (p.color = Color.black ∧ tr = 7)) :
    (∃ s', makeMove s fr fc tr tc = some (MoveResult.promotion, s') ∧
       s'.pendingPromotion = some ⟨fr, fc, tr, tc, p.color⟩) ∧
    ∀ (t : GameState) (a b c d : Int), t.pendingPromotion.isSome = true →
      makeMove t a b c d = some (MoveResult.rejected, t) := by
  constructor
  · obtain ⟨-, -, h3, -, -, -, h7, -⟩ := isValidMove_bounds hvalid
    have hncastle : isCastlingMove (some p) fr fc tr tc = false := by
      simp [isCastlingMove, hk]
    obtain ⟨s', hexec, hpp⟩ := execRegularMove_promotion hk hpiece h3 h7 hfar
    refine ⟨s', ?_, hpp⟩
    rw [makeMove_eq_execRegular hpend hover hpiece hncastle hvalid, hexec]
  · intro t a b c d hpending
    unfold makeMove
    rw [if_pos (Or.inl hpending)]

/-- Witness for C3 at a concrete input: the white pawn e7 promotes with
e7-e8 in `promoState`. -/
theorem c3_witness :
    (promoState.pendingPromotion = none ∧ promoState.isGameOver = false ∧
     promoState.board.cell 1 4 = some (mkPiece PieceKind.pawn Color.white) ∧
     isValidMove promoState 1 4 0 4 = true) ∧
    (∃ s', makeMove promoState 1 4 0 4 = some (MoveResult.promotion, s') ∧
       s'.pendingPromotion = some ⟨1, 4, 0, 4, Color.white⟩) ∧
    ∀ (t : GameState) (a b c d : Int), t.pendingPromotion.isSome = true →
      makeMove t a b c d = some (MoveResult.rejected, t) := by
  refine ⟨⟨rfl, rfl, by decide, by decide⟩, ?_⟩
  exact c3_farRankPawnMoveSuspendsUntilResolved promoState 1 4 0 4
    (mkPiece PieceKind.pawn Color.white) rfl rfl (by decide) rfl (by decide)
    (Or.inl ⟨rfl, rfl⟩)

/-- C4, amended: for every move attempt whose `fromRow` is inside the
board (so that the initial unguarded row lookup of `makeMove` cannot
throw), the call always returns a JS value — `false`, `true` or
`'promotion'` — and whenever it returns the rejection result `false` the
returned engine state is exactly the input state: board, current player,
castling rights, en-passant target, halfmove clock, histories, pending
promotion and game-over flags are all untouched.  (With `fromRow` out of
range the call throws, see the counterexample.) -/
theorem c4_inRangeRejectionLeavesStateUnchanged (s : GameState)
    (fr fc tr tc : Int) (hfr : 0 ≤ fr ∧ fr ≤ 7) :
    (∃ r s', makeMove s fr fc tr tc = some (r, s')) ∧
    ∀ s', makeMove s fr fc tr tc = some (MoveResult.rejected, s') →
      s' = s := by
  unfold makeMove
  rw [if_neg (by omega : ¬ (fr < 0 ∨ 7 < fr))]
  constructor
  · repeat' first
      | split
      | dsimp only
    all_goals exact ⟨_, _, congrArg some Prod.mk.eta.symm⟩
  · intro s' h
    repeat' first
      | split at h
      | dsimp only at h
    all_goals
      first
      | exact handleCastling_rejected (Option.some.inj h)
      | (rcases execRegularMove_fst _ _ _ _ _ _ with h1 | h1 <;>
           rw [Option.some.inj h] at h1 <;> simp at h1)
      | (simp only [Option.some.injEq, Prod.mk.injEq] at h
         exact h.2.symm)

/-- Witness for C4's amended statement at a concrete in-range input. -/
theorem c4_witness :
    ((0 : Int) ≤ 0 ∧ (0 : Int) ≤ 7) ∧
    (∃ r s', makeMove initialState 0 0 0 0 = some (r, s')) ∧
    ∀ s', makeMove initialState 0 0 0 0 = some (MoveResult.rejected, s') →
      s' = initialState := by
  refine ⟨⟨by decide, by decide⟩, ?_⟩
  exact c4_inRangeRejectionLeavesStateUnchanged initialState 0 0 0 0
    ⟨by decide, by decide⟩

/-- C10: the claim holds.  Whenever `makeMove` returns the promotion
result (over a well-formed en-passant string, which every engine-produced
state has), the board grid is unchanged — the promoting pawn still stands
on its source square and the destination square holds whatever it held
before — while the en-passant target has been cleared, the halfmove clock
reset (the suspended move is a pawn move) and the castling rights left as
the pawn move leaves them (unchanged); the board is only mutated when the
promotion is resolved by `executePromotion`, which then places the chosen
piece on the destination square and empties the source square. -/
theorem c10_promotionReturnLeavesBoardUntouched (s s' : GameState)
    (fr fc tr tc : Int)
    (hwf : epWellFormed s.fenEnPassant = true)
    (h : makeMove s fr fc tr tc = some (MoveResult.promotion, s')) :
    ∃ p, s.board.cell fr fc = some p ∧ p.kind = PieceKind.pawn ∧
      s'.board = s.board ∧
      s'.board.cell fr fc = some p ∧
      s'.board.cell tr tc = s.board.cell tr tc ∧
      s'.fenEnPassant = "-" ∧
      s'.halfmoveClock = 0 ∧
      s'.castlingRights = s.castlingRights ∧
      s'.fenCastling = s.fenCastling ∧
      s'.pendingPromotion = some ⟨fr, fc, tr, tc, p.color⟩ ∧
      ∀ pk : PromoKind,
        (executePromotion s' pk).board =
          (s'.board.setCell tr tc
            (some (mkPiece pk.toPieceKind p.color))).setCell fr fc none := by
  obtain ⟨p, hcell, hvalid, hexec⟩ := makeMove_promotion_inv h
  obtain ⟨hk, -, hs'⟩ := execRegularMove_promotion_inv hwf hvalid hcell hexec
  subst hs'
  refine ⟨p, hcell, hk, rfl, hcell, rfl, rfl, rfl, rfl, rfl, rfl, ?_⟩
  intro pk
  have hq : ({ saveGameState s with
      fenEnPassant := "-", halfmoveClock := 0,
      pendingPromotion := some ⟨fr, fc, tr, tc, p.color⟩ } :
        GameState).board.cell fr fc = some p := hcell
  unfold executePromotion
  dsimp only
  rw [hq]
  dsimp only
  rw [checkGameEndConditions_board]
  rfl

/-- Witness for C10 at the concrete promotion e7-e8 in `promoState`. -/
theorem c10_witness :
    epWellFormed promoState.fenEnPassant = true ∧
    ∃ s', makeMove promoState 1 4 0 4 = some (MoveResult.promotion, s') ∧
      ∃ p, promoState.board.cell 1 4 = some p ∧
        p.kind = PieceKind.pawn ∧
        s'.board = promoState.board ∧
        s'.board.cell 1 4 = some p ∧
        s'.board.cell 0 4 = promoState.board.cell 0 4 ∧
        s'.fenEnPassant = "-" ∧
        s'.halfmoveClock = 0 ∧
        s'.castlingRights = promoState.castlingRights ∧
        s'.fenCastling = promoState.fenCastling ∧
        s'.pendingPromotion = some ⟨1, 4, 0, 4, p.color⟩ ∧
        ∀ pk : PromoKind,
          (executePromotion s' pk).board =
            (s'.board.setCell 0 4
              (some (mkPiece pk.toPieceKind p.color))).setCell 1 4 none := by
  have h : makeMove promoState 1 4 0 4 =
      some (MoveResult.promotion,
        { saveGameState promoState with
          fenEnPassant := "-", halfmoveClock := 0,
          pendingPromotion := some ⟨1, 4, 0, 4, Color.white⟩ }) := by decide
  exact ⟨by decide, _, h,
    c10_promotionReturnLeavesBoardUntouched promoState _ 1 4 0 4
      (by decide) h⟩

/-- C9, amended: when several candidates for a piece-move token can all
legally reach the destination, resolution does NOT fail: the parser still
returns a candidate — the row-major-first one passing the test — and
`handlePieceMove` executes that candidate's move through `makeMove`; the
engine guesses among the legal candidates instead of rejecting the
ambiguous token. -/
theorem c9_ambiguousTokenResolvesToFirstCandidate (s : GameState)
    (pt : String) (d : Option String) (tr tc : Int) (c1 c2 : Candidate)
    (h12 : c1 ≠ c2)
    (h1 : c1 ∈ filteredCandidates s pt d)
    (h2 : c2 ∈ filteredCandidates s pt d)
    (p1 : candidatePasses s c1 tr tc = true)
    (p2 : candidatePasses s c2 tr tc = true) :
    ∃ c, findPieceForMove s pt d tr tc = some c ∧
      candidatePasses s c tr tc = true ∧
      handlePieceMove s pt d tr tc = makeMove s c.row c.col tr tc := by
  obtain ⟨c, hc⟩ := findSome?_isSome_of_mem
    (f := fun c => if candidatePasses s c tr tc = true then some c else none)
    h1 (show (if candidatePasses s c1 tr tc = true then some c1 else none)
      = some c1 by rw [if_pos p1])
  have hf : findPieceForMove s pt d tr tc = some c := by
    unfold findPieceForMove
    exact hc
  refine ⟨c, hf, ?_, ?_⟩
  · obtain ⟨a, ha, hfa⟩ := exists_of_findSome?_mem hc
    by_cases hp : candidatePasses s a tr tc = true
    · rw [if_pos hp] at hfa
      injection hfa with hfa
      rw [← hfa]
      exact hp
    · rw [if_neg hp] at hfa
      cases hfa
  · unfold handlePieceMove
    rw [hf]

/-- Witness for C9's amended statement at the two-knight position. -/
theorem c9_amended_witness :
    ((⟨4, 0, mkPiece PieceKind.knight Color.white⟩ : Candidate) ≠
       ⟨4, 4, mkPiece PieceKind.knight Color.white⟩ ∧
     (⟨4, 0, mkPiece PieceKind.knight Color.white⟩ : Candidate) ∈
       filteredCandidates c9State "n" none ∧
     (⟨4, 4, mkPiece PieceKind.knight Color.white⟩ : Candidate) ∈
       filteredCandidates c9State "n" none ∧
     candidatePasses c9State
       ⟨4, 0, mkPiece PieceKind.knight Color.white⟩ 5 2 = true ∧
     candidatePasses c9State
       ⟨4, 4, mkPiece PieceKind.knight Color.white⟩ 5 2 = true) ∧
    ∃ c, findPieceForMove c9State "n" none 5 2 = some c ∧
      candidatePasses c9State c 5 2 = true ∧
      handlePieceMove c9State "n" none 5 2 =
        makeMove c9State c.row c.col 5 2 := by
  refine ⟨⟨by decide, by decide, by decide, by decide, by decide⟩, ?_⟩
  exact c9_ambiguousTokenResolvesToFirstCandidate c9State "n" none 5 2
    ⟨4, 0, mkPiece PieceKind.knight Color.white⟩
    ⟨4, 4, mkPiece PieceKind.knight Color.white⟩
    (by decide) (by decide) (by decide) (by decide) (by decide)

/-- C8, amended: two engine states receive the same position key if and
only if they agree on side to move, on the four FEN castling flags, on
the literal en-passant string, and, on every square, on occupancy, piece
color and piece kind UP TO the king/knight identification (the key
encodes both kinds as `'k'`, and never encodes the stored symbol) — the
hypothesis restricts the en-passant field to the well-formed strings the
engine actually produces. -/
theorem c8_fingerprintCharacterization (s1 s2 : GameState)
    (h1 : epWellFormed s1.fenEnPassant = true)
    (h2 : epWellFormed s2.fenEnPassant = true) :
    generatePositionKey s1 = generatePositionKey s2 ↔
      ((∀ r ∈ List.range 8, ∀ c ∈ List.range 8,
          sameKeyPiece (s1.board.cell (r : Int) (c : Int))
            (s2.board.cell (r : Int) (c : Int))) ∧
       s1.currentPlayer = s2.currentPlayer ∧
       s1.fenCastling = s2.fenCastling ∧
       s1.fenEnPassant = s2.fenEnPassant) := by
  constructor
  · intro h
    have hdata := congrArg String.data h
    rw [generatePositionKey_data, generatePositionKey_data] at hdata
    obtain ⟨hcodes, hrest⟩ := blocks_split _ _ _ _
      (boardCodes_sq_length s1) (boardCodes_sq_length s2)
      (by rw [List.length_map, List.length_map, boardCodes_length,
        boardCodes_length]) hdata
    have hbc : boardCodes s1 = boardCodes s2 := map_data_inj hcodes
    obtain ⟨hplayer, hrest2⟩ := player_split hrest
    rw [castlingKeyPart_data, castlingKeyPart_data] at hrest2
    obtain ⟨hv, hts⟩ := flags_split ['K', 'Q', 'k', 'q'] (by decide)
      [s1.fenCastling.K, s1.fenCastling.Q, s1.fenCastling.k,
       s1.fenCastling.q]
      [s2.fenCastling.K, s2.fenCastling.Q, s2.fenCastling.k,
       s2.fenCastling.q]
      s1.fenEnPassant.data s2.fenEnPassant.data rfl rfl
      (ep_head_not_flag h1) (ep_head_not_flag h2) hrest2
    simp only [List.cons.injEq, and_true] at hv
    refine ⟨?_, hplayer, ?_, string_data_inj hts⟩
    · intro r hr c hc
      exact (pieceKeyCode_eq_iff _ _).mp
        ((boardCodes_eq_iff s1 s2).mp hbc r hr c hc)
    · exact fenCastling_ext hv.1 hv.2.1 hv.2.2.1 hv.2.2.2
  · rintro ⟨hcells, hplayer, hcast, hep⟩
    apply string_data_inj
    rw [generatePositionKey_data, generatePositionKey_data,
      hplayer, hcast, hep]
    have hbc : boardCodes s1 = boardCodes s2 :=
      (boardCodes_eq_iff s1 s2).mpr fun r hr c hc =>
        (pieceKeyCode_eq_iff _ _).mpr (hcells r hr c hc)
    rw [hbc]

/-- Witness for C8's amended statement at the two collision positions. -/
theorem c8_amended_witness :
    (epWellFormed c8StateA.fenEnPassant = true ∧
     epWellFormed c8StateB.fenEnPassant = true) ∧
    (generatePositionKey c8StateA = generatePositionKey c8StateB ↔
      ((∀ r ∈ List.range 8, ∀ c ∈ List.range 8,
          sameKeyPiece (c8StateA.board.cell (r : Int) (c : Int))
            (c8StateB.board.cell (r : Int) (c : Int))) ∧
       c8StateA.currentPlayer = c8StateB.currentPlayer ∧
       c8StateA.fenCastling = c8StateB.fenCastling ∧
       c8StateA.fenEnPassant = c8StateB.fenEnPassant)) := by
  refine ⟨⟨by decide, by decide⟩, ?_⟩
  exact c8_fingerprintCharacterization c8StateA c8StateB
    (by decide) (by decide)


end Chess
